import Mathlib

/-!
Verification of the ZLUDA PTX → LLVM translation core: a shallow embedding of
the `normalize_identifiers2` pass and the `emit_llvm` pass
(`src/ptx/src/pass/normalize_identifiers2.rs`, `src/ptx/src/pass/emit_llvm.rs`),
together with proofs of the specified properties.

Machine integers are modelled as `Nat` (no arithmetic overflowing 32/64 bits
occurs in the translated code paths). Rust `Result<T, TranslateError>` becomes
`Except TranslateError T`; a Rust `panic!`/`todo!`/`unimplemented!` is modelled
as a distinguished error constructor (`EmitErr.panicTodo` / `EmitErr.panicOther`)
so that typed errors and panics stay distinguishable, as they are in the source.
The LLVM-C API (an external dependency) is modelled as explicit state: a module
is a list of functions, a function holds basic blocks, a basic block holds
instructions, and LLVM values are freshly numbered handles.
-/

namespace ZLUDA

/-- ZLUDA's numbered identifier (`SpirvWord` in the source). -/
abbrev SpirvWord := Nat

/-! ## PTX AST model (types from the external `ptx_parser` crate used by the passes) -/

/-- `ptx_parser::ScalarType`. -/
inductive ScalarType where
  | Pred
  | S8 | B8 | U8
  | B16 | U16 | S16
  | S32 | B32 | U32
  | U64 | S64 | B64
  | B128
  | F16 | F32 | F64 | BF16
  | U16x2 | S16x2 | F16x2 | BF16x2
deriving DecidableEq, Repr

/-- `ptx_parser::StateSpace`. -/
inductive StateSpace where
  | Reg
  | Generic
  | Param
  | ParamEntry
  | ParamFunc
  | Local
  | Global
  | Const
  | Shared
  | SharedCta
  | SharedCluster
deriving DecidableEq, Repr

/-- `ptx_parser::Type`: scalar, vector, array (optional packed-vector width,
element scalar, dimension list), or pointer (pointee scalar, state space). -/
inductive PtxType where
  | Scalar (s : ScalarType)
  | Vector (n : Nat) (s : ScalarType)
  | Array (vec : Option Nat) (s : ScalarType) (dimensions : List Nat)
  | Pointer (s : ScalarType) (space : StateSpace)
deriving DecidableEq, Repr

/-- The typed error channel of the translator (`TranslateError`). Only the
variants reachable from the two passes under verification are modelled;
`UnknownSymbol` and `Redefinition` stand for the resolver failures of the
scoped resolver (whose concrete variant names are outside `src/`). -/
inductive TranslateError where
  | Todo
  | Unreachable
  | UnknownSymbol
  | Redefinition
deriving DecidableEq, Repr

/-- Failure of an emission step: either a typed `TranslateError` returned as a
`Result::Err` in the source, or a Rust panic (`todo!()` is `panicTodo`,
`panic!`/failed assertion is `panicOther`). -/
inductive EmitErr where
  | translate (e : TranslateError)
  | panicTodo
  | panicOther
deriving DecidableEq, Repr

/-! ## LLVM type model -/

/-- LLVM types, as produced through the LLVM-C type constructors used by
`emit_llvm.rs`. -/
inductive LLVMType where
  | IntType (bits : Nat)
  | Half
  | Float
  | Double
  | BFloat
  | VectorType (n : Nat) (t : LLVMType)
  | ArrayType (n : Nat) (t : LLVMType)
  | PointerType (addrspace : Nat)
  | Void
  | FunctionType (ret : LLVMType) (args : List LLVMType)

/-! ## Pure type / address-space mappers (`emit_llvm.rs`) -/

/-- Address-space constants from `emit_llvm.rs` (AMDGPU address spaces). -/
def GENERIC_ADDRESS_SPACE : Nat := 0
def GLOBAL_ADDRESS_SPACE : Nat := 1
def SHARED_ADDRESS_SPACE : Nat := 3
def CONSTANT_ADDRESS_SPACE : Nat := 4
def PRIVATE_ADDRESS_SPACE : Nat := 5

/-- `get_state_space` (emit_llvm.rs:690-704), returning
`Result<u32, TranslateError>` exactly as in the source. -/
def getStateSpaceT : StateSpace → Except TranslateError Nat
  | .Reg => .ok PRIVATE_ADDRESS_SPACE
  | .Generic => .ok GENERIC_ADDRESS_SPACE
  | .Param => .error .Todo
  | .ParamEntry => .ok CONSTANT_ADDRESS_SPACE
  | .ParamFunc => .error .Todo
  | .Local => .ok PRIVATE_ADDRESS_SPACE
  | .Global => .ok GLOBAL_ADDRESS_SPACE
  | .Const => .ok CONSTANT_ADDRESS_SPACE
  | .Shared => .ok SHARED_ADDRESS_SPACE
  | .SharedCta => .error .Todo
  | .SharedCluster => .error .Todo

/-- `get_state_space` lifted into the emission error channel (a returned
`TranslateError` propagates through `?` unchanged). -/
def getStateSpace (s : StateSpace) : Except EmitErr Nat :=
  match getStateSpaceT s with
  | .ok n => .ok n
  | .error e => .error (.translate e)

/-- `get_scalar_type` (emit_llvm.rs:641-666). In the source this function
returns a bare `LLVMTypeRef` and hits `todo!()` (a panic) on the packed
16-bit-pair types; the panic is modelled as `EmitErr.panicTodo`. -/
def getScalarType : ScalarType → Except EmitErr LLVMType
  | .Pred => .ok (.IntType 1)
  | .S8 | .B8 | .U8 => .ok (.IntType 8)
  | .B16 | .U16 | .S16 => .ok (.IntType 16)
  | .S32 | .B32 | .U32 => .ok (.IntType 32)
  | .U64 | .S64 | .B64 => .ok (.IntType 64)
  | .B128 => .ok (.IntType 128)
  | .F16 => .ok .Half
  | .F32 => .ok .Float
  | .F64 => .ok .Double
  | .BF16 => .ok .BFloat
  | .U16x2 => .error .panicTodo
  | .S16x2 => .error .panicTodo
  | .F16x2 => .error .panicTodo
  | .BF16x2 => .error .panicTodo

/-- `get_pointer_type` (emit_llvm.rs:609-614): an opaque pointer in the mapped
address space. -/
def getPointerType (toSpace : StateSpace) : Except EmitErr LLVMType :=
  match getStateSpace toSpace with
  | .error e => .error e
  | .ok n => .ok (.PointerType n)

/-- `get_type` (emit_llvm.rs:616-639). Array dimensions are applied by
`rfold`, i.e. right-to-left / innermost first; an empty dimension list gives a
zero-length array. -/
def getType : PtxType → Except EmitErr LLVMType
  | .Scalar s => getScalarType s
  | .Vector n s =>
    match getScalarType s with
    | .error e => .error e
    | .ok base => .ok (.VectorType n base)
  | .Array vec s dimensions =>
    match getScalarType s with
    | .error e => .error e
    | .ok base =>
      let underlying := match vec with
        | some size => LLVMType.VectorType size base
        | none => base
      if dimensions.isEmpty then
        .ok (.ArrayType 0 underlying)
      else
        .ok (dimensions.foldr (fun d acc => .ArrayType d acc) underlying)
  | .Pointer _ space => getPointerType space

/-- `get_input_argument_type` (emit_llvm.rs:286-298). -/
def getInputArgumentType (vType : PtxType) (stateSpace : StateSpace) :
    Except EmitErr LLVMType :=
  match stateSpace with
  | .ParamEntry =>
    match getStateSpace stateSpace with
    | .error e => .error e
    | .ok n => .ok (.PointerType n)
  | .Reg => getType vType
  | _ => .error (.translate .Unreachable)

/-- `get_function_type` (emit_llvm.rs:668-688): the input-argument results are
collected first, then the return type is computed (0 returns → void, 1 →
direct, more → `todo!()`). -/
def getFunctionType (returnArgs : List PtxType)
    (inputArgs : List (Except EmitErr LLVMType)) : Except EmitErr LLVMType :=
  match inputArgs.mapM id with
  | .error e => .error e
  | .ok inputs =>
    match returnArgs with
    | [] => .ok (.FunctionType .Void inputs)
    | [t] =>
      match getType t with
      | .error e => .error e
      | .ok ret => .ok (.FunctionType ret inputs)
    | _ => .error .panicTodo

/-! ## Normalized statements and instructions -/

/-- `ast::Variable<ID>` (generic over the operand/name type: source strings
before normalization, `SpirvWord` after). `arrayInit` models the `Vec<u8>`
initializer bytes; only its contents and emptiness are ever inspected. -/
structure VariableAst (ID : Type) where
  name : ID
  align : Option Nat
  vType : PtxType
  stateSpace : StateSpace
  arrayInit : List Nat
deriving DecidableEq, Repr

/-- `ast::LdStQualifier` (external `ptx_parser` enum; the emitter only
distinguishes `Weak` from everything else). -/
inductive LdStQualifier where
  | Weak
  | Volatile
  | Relaxed
  | Acquire
  | Release
deriving DecidableEq, Repr

/-- `ast::MovDetails` — carried through `emit_mov` unused. -/
structure MovDetails where
  typ : PtxType
deriving DecidableEq, Repr

/-- `ast::MovArgs`. -/
structure MovArgs where
  dst : SpirvWord
  src : SpirvWord
deriving DecidableEq, Repr

/-- The fields of `ast::LdDetails` read by `emit_ld`. -/
structure LdDetails where
  qualifier : LdStQualifier
  nonCoherent : Bool
  typ : PtxType
deriving DecidableEq, Repr

/-- `ast::LdArgs`. -/
structure LdArgs where
  dst : SpirvWord
  src : SpirvWord
deriving DecidableEq, Repr

/-- The field of `ptx_parser::StData` read by `emit_st`. -/
structure StData where
  qualifier : LdStQualifier
deriving DecidableEq, Repr

/-- `ptx_parser::StArgs`. -/
structure StArgs where
  src1 : SpirvWord
  src2 : SpirvWord
deriving DecidableEq, Repr

/-- `ast::ArithDetails` — `emit_add` dispatches on the variant only. -/
inductive ArithDetails where
  | Integer
  | Float
deriving DecidableEq, Repr

/-- `ast::AddArgs`. -/
structure AddArgs where
  dst : SpirvWord
  src1 : SpirvWord
  src2 : SpirvWord
deriving DecidableEq, Repr

/-- The fields of `ptx_parser::CallDetails` read by `emit_call`. -/
structure CallDetails where
  returnArguments : List (PtxType × StateSpace)
  inputArguments : List (PtxType × StateSpace)
deriving DecidableEq, Repr

/-- `ptx_parser::CallArgs`. -/
structure CallArgs where
  returnArguments : List SpirvWord
  func : SpirvWord
  inputArguments : List SpirvWord
deriving DecidableEq, Repr

/-- `ast::Instruction<SpirvWord>`. The variants whose arm in
`emit_instruction` (emit_llvm.rs:389-443) is `todo!()` are carried without
payload: their data is never inspected by the code under verification. -/
inductive Instruction where
  | Mov (data : MovDetails) (arguments : MovArgs)
  | Ld (data : LdDetails) (arguments : LdArgs)
  | Add (data : ArithDetails) (arguments : AddArgs)
  | St (data : StData) (arguments : StArgs)
  | Call (data : CallDetails) (arguments : CallArgs)
  | Ret
  | Mul | Setp | SetpBool | Not | Or | And | Bra | Cvt | Shr | Shl
  | Cvta | Abs | Mad | Fma | Sub | Min | Max | Rcp | Sqrt | Rsqrt
  | Selp | Bar | Atom | AtomCas | Div | Neg | Sin | Cos | Lg2 | Ex2
  | Clz | Brev | Popc | Xor | Rem | Bfe | Bfi | PrmtSlow | Prmt
  | Activemask | Membar | Trap
deriving DecidableEq, Repr

/-- `LoadVarDetails` (fields read by `emit_load_variable`). -/
structure LoadVarDetails where
  typ : PtxType
  memberIndex : Option Nat
  dst : SpirvWord
  src : SpirvWord
deriving DecidableEq, Repr

/-- `StoreVarDetails` (fields read by `emit_store_var`). -/
structure StoreVarDetails where
  src1 : SpirvWord
  src2 : SpirvWord
deriving DecidableEq, Repr

/-- `ConversionKind` (the full source enum matched in `emit_conversion`). -/
inductive ConversionKind where
  | Default
  | SignExtend
  | BitToPtr
  | PtrToPtr
  | AddressOf
deriving DecidableEq, Repr

/-- `ImplicitConversion` (fields read by `emit_conversion`). -/
structure ImplicitConversion where
  src : SpirvWord
  dst : SpirvWord
  toSpace : StateSpace
  kind : ConversionKind
deriving DecidableEq, Repr

/-- `ast::ImmediateValue`. Float payloads are carried as raw bit patterns;
the emitter forwards them opaquely to `LLVMConstReal`. -/
inductive ImmediateValue where
  | U64 (x : Nat)
  | S64 (x : Int)
  | F32 (bits : Nat)
  | F64 (bits : Nat)
deriving DecidableEq, Repr

/-- `ConstantDefinition` (fields read by `emit_constant`). -/
structure ConstantDefinition where
  dst : SpirvWord
  typ : ScalarType
  value : ImmediateValue
deriving DecidableEq, Repr

/-- `Statement<I, SpirvWord>`: the per-function statement stream, generic over
the instruction payload (normalized instructions after `normalize_identifiers2`,
`ast::Instruction<SpirvWord>` at emission time). The statement forms whose arm
in `emit_statement` (emit_llvm.rs:327-346) is `todo!()` carry no payload. -/
inductive Statement (I : Type) where
  | Variable (var : VariableAst SpirvWord)
  | Label (label : SpirvWord)
  | Instruction (inst : I)
  | Conditional
  | LoadVar (var : LoadVarDetails)
  | StoreVar (store : StoreVarDetails)
  | Conversion (conversion : ImplicitConversion)
  | Constant (constant : ConstantDefinition)
  | RetValue
  | PtrAccess
  | RepackVector
  | FunctionPointer
  | VectorAccess

/-! ## LLVM module-building state (the LLVM-C surface used by the emitter) -/

/-- One LLVM instruction as appended by the builder calls of `emit_llvm.rs`.
Operand LLVM values are the numbered handles of `EmitCtx`. The `align` on an
alloca records the subsequent `LLVMSetAlignment` call. -/
inductive InstrK where
  | Alloca (t : LLVMType) (addrspace : Nat) (name : String) (align : Option Nat)
  | Br (target : Nat)
  | Load (t : LLVMType) (ptr : Nat) (name : String)
  | Store (value : Nat) (ptr : Nat)
  | IAdd (lhs : Nat) (rhs : Nat) (name : String)
  | FAdd (lhs : Nat) (rhs : Nat) (name : String)
  | RetVoid
  | IntToPtr (src : Nat) (t : LLVMType) (name : String)
  | CallInst (fnType : LLVMType) (callee : Nat) (args : List Nat) (name : String)

/-- Whether an instruction is an LLVM terminator (what
`LLVMGetBasicBlockTerminator` reports at the end of a block). -/
def InstrK.isTerminator : InstrK → Bool
  | .Br _ => true
  | .RetVoid => true
  | _ => false

/-- Whether an instruction is an alloca. -/
def InstrK.isAlloca : InstrK → Bool
  | .Alloca _ _ _ _ => true
  | _ => false

/-- A basic block under construction: its name and its instructions in
append order. -/
structure Block where
  name : String
  instrs : List InstrK

/-- `LLVMCallConv` values set by the emitter. -/
inductive CallConv where
  | AMDGPUKernel
  | C
deriving DecidableEq, Repr

/-- An LLVM function as built by `emit_method`: name, type, its own value
handle, parameter value handles and names, parameter attributes
(attribute index, byref pointee type), calling convention, basic blocks. -/
structure FnBuild where
  name : String
  fnType : LLVMType
  value : Nat
  params : List Nat
  paramNames : List String
  attrs : List (Nat × LLVMType)
  callConv : Option CallConv
  blocks : List Block

/-- The mutable module-emission context threaded across methods:
`ResolveIdent.values` (identifier → LLVM value, last writer wins) and the
fresh-value counter standing for LLVM's value allocation. -/
structure EmitCtx where
  values : List (SpirvWord × Nat)
  nextValue : Nat

/-- Initial context of a `run` invocation. -/
def initialCtx : EmitCtx := ⟨[], 0⟩

/-- Allocate a fresh LLVM value handle. -/
def freshValue (c : EmitCtx) : Nat × EmitCtx :=
  (c.nextValue, { c with nextValue := c.nextValue + 1 })

/-- Allocate `n` fresh LLVM value handles (the parameter values that exist as
soon as `LLVMAddFunction` creates the function). -/
def freshValues (c : EmitCtx) : Nat → List Nat × EmitCtx
  | 0 => ([], c)
  | n + 1 =>
    let (v, c1) := freshValue c
    let (vs, c2) := freshValues c1 n
    (v :: vs, c2)

/-- `ResolveIdent::register` (emit_llvm.rs:739-741): record a value for an id;
last writer wins. -/
def registerValue (c : EmitCtx) (w : SpirvWord) (v : Nat) : EmitCtx :=
  { c with values := (w, v) :: c.values }

/-- Lookup in `ResolveIdent.values`. -/
def lookupValue (c : EmitCtx) (w : SpirvWord) : Option Nat :=
  (c.values.find? (fun p => p.1 = w)).map (fun p => p.2)

/-- `ResolveIdent::value` (emit_llvm.rs:743-748): retrieve an id's value, or
fail with the `Unreachable` error. -/
def valueOf (c : EmitCtx) (w : SpirvWord) : Except EmitErr Nat :=
  match lookupValue c w with
  | some v => .ok v
  | none => .error (.translate .Unreachable)

/-- `ResolveIdent::get_or_add` (emit_llvm.rs:719-737): the interned LLVM name
of an identifier is its integer rendered as decimal. -/
def identName (w : SpirvWord) : String := toString w

/-- Append an instruction at the end of basic block `i` (the effect of a
builder call with the builder positioned at that block's end). -/
def appendInstr : List Block → Nat → InstrK → List Block
  | [], _, _ => []
  | b :: bs, 0, k => { b with instrs := b.instrs ++ [k] } :: bs
  | b :: bs, n + 1, k => b :: appendInstr bs n k

/-- Per-method emission state: the module context, this function's basic
blocks (index 0 is the allocas block, index 1 the real entry block), and the
index of the block the main builder is positioned at. -/
structure MethodState where
  ctx : EmitCtx
  blocks : List Block
  cur : Nat

/-! ## Per-statement emission (`MethodEmitContext`, emit_llvm.rs:300-607) -/

/-- `ResolveIdent::with_result` (emit_llvm.rs:750-753): intern the
destination's name, build the value-producing instruction at the current
block's end, and register the produced value for the destination id. -/
def withResult (st : MethodState) (dst : SpirvWord) (mk : String → InstrK) :
    MethodState :=
  let nm := identName dst
  let (v, ctx) := freshValue st.ctx
  { st with
    ctx := registerValue ctx dst v
    blocks := appendInstr st.blocks st.cur (mk nm) }

/-- `emit_variable` (emit_llvm.rs:348-365): build the alloca in the allocas
block (block 0) through the variables builder, register it, apply alignment,
then `todo!()` on a non-empty array initializer. -/
def emitVariable (st : MethodState) (var : VariableAst SpirvWord) :
    Except EmitErr MethodState :=
  match getType var.vType with
  | .error e => .error e
  | .ok t =>
    match getStateSpace var.stateSpace with
    | .error e => .error e
    | .ok space =>
      let nm := identName var.name
      let (alloca, ctx) := freshValue st.ctx
      let blocks := appendInstr st.blocks 0 (.Alloca t space nm var.align)
      let ctx := registerValue ctx var.name alloca
      if var.arrayInit.isEmpty then
        .ok { st with ctx := ctx, blocks := blocks }
      else
        .error .panicTodo

/-- The `LLVMGetBasicBlockTerminator` query of `emit_label`: whether block `i`
currently ends in a terminator. -/
def hasTerminatorAt (bs : List Block) (i : Nat) : Bool :=
  match bs[i]? with
  | some b =>
    match b.instrs.getLast? with
    | some k => k.isTerminator
    | none => false
  | none => false

/-- `emit_label` (emit_llvm.rs:367-380): append a new basic block named after
the label id; if the block the builder is in has no terminator, emit a
fallthrough branch to the new block; reposition the builder at its end. -/
def emitLabel (st : MethodState) (label : SpirvWord) : MethodState :=
  let newIdx := st.blocks.length
  let blocks := st.blocks ++ [⟨identName label, []⟩]
  let blocks :=
    if hasTerminatorAt st.blocks st.cur then blocks
    else appendInstr blocks st.cur (.Br newIdx)
  { st with blocks := blocks, cur := newIdx }

/-- `emit_store_var` (emit_llvm.rs:382-387). -/
def emitStoreVar (st : MethodState) (store : StoreVarDetails) :
    Except EmitErr MethodState :=
  match valueOf st.ctx store.src1 with
  | .error e => .error e
  | .ok ptr =>
    match valueOf st.ctx store.src2 with
    | .error e => .error e
    | .ok value => .ok { st with blocks := appendInstr st.blocks st.cur (.Store value ptr) }

/-- `emit_ld` (emit_llvm.rs:445-463): `todo!()` on non-coherent loads, then on
any qualifier other than `Weak`; otherwise a typed load of the declared type. -/
def emitLd (st : MethodState) (data : LdDetails) (arguments : LdArgs) :
    Except EmitErr MethodState :=
  if data.nonCoherent then .error .panicTodo
  else if data.qualifier ≠ .Weak then .error .panicTodo
  else
    match getType data.typ with
    | .error e => .error e
    | .ok t =>
      match valueOf st.ctx arguments.src with
      | .error e => .error e
      | .ok ptr => .ok (withResult st arguments.dst (fun nm => .Load t ptr nm))

/-- `emit_load_variable` (emit_llvm.rs:465-476). -/
def emitLoadVariable (st : MethodState) (var : LoadVarDetails) :
    Except EmitErr MethodState :=
  if var.memberIndex.isSome then .error .panicTodo
  else
    match getType var.typ with
    | .error e => .error e
    | .ok t =>
      match valueOf st.ctx var.src with
      | .error e => .error e
      | .ok ptr => .ok (withResult st var.dst (fun nm => .Load t ptr nm))

/-- `emit_conversion` (emit_llvm.rs:478-494): only `BitToPtr` is implemented. -/
def emitConversion (st : MethodState) (conversion : ImplicitConversion) :
    Except EmitErr MethodState :=
  match conversion.kind with
  | .Default => .error .panicTodo
  | .SignExtend => .error .panicTodo
  | .BitToPtr =>
    match valueOf st.ctx conversion.src with
    | .error e => .error e
    | .ok src =>
      match getPointerType conversion.toSpace with
      | .error e => .error e
      | .ok t => .ok (withResult st conversion.dst (fun nm => .IntToPtr src t nm))
  | .PtrToPtr => .error .panicTodo
  | .AddressOf => .error .panicTodo

/-- `emit_constant` (emit_llvm.rs:496-506): materialise a constant value (no
instruction is appended; `LLVMConstInt`/`LLVMConstReal` create bare values)
and register it for the destination id. `get_scalar_type` can panic on packed
types. -/
def emitConstant (st : MethodState) (constant : ConstantDefinition) :
    Except EmitErr MethodState :=
  match getScalarType constant.typ with
  | .error e => .error e
  | .ok _ =>
    let (v, ctx) := freshValue st.ctx
    .ok { st with ctx := registerValue ctx constant.dst v }

/-- `emit_add` (emit_llvm.rs:508-524): resolve both sources, then dispatch on
the arithmetic variant — integer → `add`, float → `fadd`. -/
def emitAdd (st : MethodState) (data : ArithDetails) (arguments : AddArgs) :
    Except EmitErr MethodState :=
  match valueOf st.ctx arguments.src1 with
  | .error e => .error e
  | .ok src1 =>
    match valueOf st.ctx arguments.src2 with
    | .error e => .error e
    | .ok src2 =>
      let mk : String → InstrK :=
        match data with
        | .Integer => fun nm => .IAdd src1 src2 nm
        | .Float => fun nm => .FAdd src1 src2 nm
      .ok (withResult st arguments.dst mk)

/-- `emit_st` (emit_llvm.rs:526-538): the operands are resolved before the
qualifier is checked; non-`Weak` qualifiers hit `todo!()`. -/
def emitSt (st : MethodState) (data : StData) (arguments : StArgs) :
    Except EmitErr MethodState :=
  match valueOf st.ctx arguments.src1 with
  | .error e => .error e
  | .ok ptr =>
    match valueOf st.ctx arguments.src2 with
    | .error e => .error e
    | .ok value =>
      if data.qualifier ≠ .Weak then .error .panicTodo
      else .ok { st with blocks := appendInstr st.blocks st.cur (.Store value ptr) }

/-- `emit_ret` (emit_llvm.rs:540-542): `ret void`. -/
def emitRet (st : MethodState) : MethodState :=
  { st with blocks := appendInstr st.blocks st.cur .RetVoid }

/-- `emit_mov` (emit_llvm.rs:598-606): no IR; bind the destination id to the
source's current value. -/
def emitMov (st : MethodState) (arguments : MovArgs) :
    Except EmitErr MethodState :=
  match valueOf st.ctx arguments.src with
  | .error e => .error e
  | .ok v => .ok { st with ctx := registerValue st.ctx arguments.dst v }

/-- `emit_call` (emit_llvm.rs:544-596), with `debug_assertions` enabled as in
the test builds: every declared return/input must be in `.reg` space, the call
name comes from the single return id (if any), the function type is rebuilt
from the declared types, argument values are collected, the call is emitted,
and a single return id is bound to the call's value. -/
def emitCall (st : MethodState) (data : CallDetails) (arguments : CallArgs) :
    Except EmitErr MethodState :=
  if data.returnArguments.any (fun p => p.2 ≠ .Reg) then .error .panicOther
  else if data.inputArguments.any (fun p => p.2 ≠ .Reg) then .error .panicOther
  else
    let nameE : Except EmitErr String :=
      match data.returnArguments, arguments.returnArguments with
      | [], [] => .ok ""
      | [_], [dst] => .ok (identName dst)
      | _, _ => .error .panicTodo
    match nameE with
    | .error e => .error e
    | .ok nm =>
      match getFunctionType (data.returnArguments.map (fun p => p.1))
          (data.inputArguments.map (fun p => getInputArgumentType p.1 p.2)) with
      | .error e => .error e
      | .ok t =>
        match arguments.inputArguments.mapM (valueOf st.ctx) with
        | .error e => .error e
        | .ok argVals =>
          match valueOf st.ctx arguments.func with
          | .error e => .error e
          | .ok callee =>
            let (v, ctx) := freshValue st.ctx
            let blocks := appendInstr st.blocks st.cur (.CallInst t callee argVals nm)
            match arguments.returnArguments with
            | [] => .ok { st with ctx := ctx, blocks := blocks }
            | [ret] => .ok { st with ctx := registerValue ctx ret v, blocks := blocks }
            | _ => .error .panicTodo

/-- `emit_instruction` (emit_llvm.rs:389-443). -/
def emitInstruction (st : MethodState) : Instruction → Except EmitErr MethodState
  | .Mov _ arguments => emitMov st arguments
  | .Ld data arguments => emitLd st data arguments
  | .Add data arguments => emitAdd st data arguments
  | .St data arguments => emitSt st data arguments
  | .Call data arguments => emitCall st data arguments
  | .Ret => .ok (emitRet st)
  | _ => .error .panicTodo

/-- `emit_statement` (emit_llvm.rs:327-346). -/
def emitStatement (st : MethodState) :
    Statement Instruction → Except EmitErr MethodState
  | .Variable var => emitVariable st var
  | .Label label => .ok (emitLabel st label)
  | .Instruction inst => emitInstruction st inst
  | .Conditional => .error .panicTodo
  | .LoadVar var => emitLoadVariable st var
  | .StoreVar store => emitStoreVar st store
  | .Conversion conversion => emitConversion st conversion
  | .Constant constant => emitConstant st constant
  | .RetValue => .error .panicTodo
  | .PtrAccess => .error .panicTodo
  | .RepackVector => .error .panicTodo
  | .FunctionPointer => .error .panicTodo
  | .VectorAccess => .error .panicTodo

/-- The statement loop of `emit_method` (emit_llvm.rs:277-279). -/
def emitStatements (st : MethodState) :
    List (Statement Instruction) → Except EmitErr MethodState
  | [] => .ok st
  | s :: rest =>
    match emitStatement st s with
    | .error e => .error e
    | .ok st2 => emitStatements st2 rest

/-! ## Method and module emission (`ModuleEmitContext`, emit_llvm.rs:166-284) -/

/-- `ast::MethodName`. -/
inductive MethodName where
  | Kernel (name : String)
  | Func (id : SpirvWord)
deriving DecidableEq, Repr

/-- `MethodName::is_kernel`. -/
def MethodName.isKernel : MethodName → Bool
  | .Kernel _ => true
  | .Func _ => false

/-- `ast::MethodDeclaration<SpirvWord>` (the fields read by `emit_method`;
`shared_mem` is `None` after normalization). -/
structure MethodDecl where
  name : MethodName
  returnArguments : List (VariableAst SpirvWord)
  inputArguments : List (VariableAst SpirvWord)

/-- `Function2` as consumed by `emit_method` (tuning, linkage and the empty
`globals` are not read by the emitter). -/
structure Method where
  funcDecl : MethodDecl
  importAs : Option String
  body : Option (List (Statement Instruction))

/-- The lookup `id_defs.ident_map[&id].name` of `emit_method`: the optional
source name recorded for a numbered id. -/
abbrev IdentMap := SpirvWord → Option String

/-- The name computation of `emit_method` (emit_llvm.rs:222-230): `import_as`
override, else the kernel name, else the id's source name; absence, or a name
`CString::new` rejects (an interior NUL byte), is the `Unreachable` error. -/
def methodGlobalName (identMap : IdentMap) (m : Method) : Except EmitErr String :=
  let picked : Option String :=
    match m.importAs with
    | some n => some n
    | none =>
      match m.funcDecl.name with
      | .Kernel n => some n
      | .Func id => identMap id
  match picked with
  | none => .error (.translate .Unreachable)
  | some n =>
    if n.toList.contains (Char.ofNat 0) then .error (.translate .Unreachable)
    else .ok n

/-- The parameter loop of `emit_method` (emit_llvm.rs:243-261), over the input
arguments zipped with their LLVM parameter values, carrying the running
attribute index `i`: name the parameter after its interned id, register
id → parameter value, and for kernels attach `byref(get_type(v_type))` at
attribute index `i + 1`. -/
def emitParamLoop (isKer : Bool) (ctx : EmitCtx)
    (ps : List (VariableAst SpirvWord × Nat)) (i : Nat) :
    Except EmitErr (EmitCtx × List String × List (Nat × LLVMType)) :=
  match ps with
  | [] => .ok (ctx, [], [])
  | (v, pv) :: rest =>
    let nm := identName v.name
    let ctx := registerValue ctx v.name pv
    let attrHereE : Except EmitErr (List (Nat × LLVMType)) :=
      if isKer then
        match getType v.vType with
        | .error e => .error e
        | .ok t => .ok [(i + 1, t)]
      else .ok []
    match attrHereE with
    | .error e => .error e
    | .ok attrHere =>
      match emitParamLoop isKer ctx rest (i + 1) with
      | .error e => .error e
      | .ok (ctx2, nms, attrs) => .ok (ctx2, nm :: nms, attrHere ++ attrs)

/-- The body emission of `emit_method` (emit_llvm.rs:268-281): two basic
blocks appended up-front (allocas block, then real entry block), the main
builder positioned at the real block, statements emitted, and finally the
allocas block terminated with a branch to the real block through the
variables builder. -/
def emitBody (ctx : EmitCtx) :
    Option (List (Statement Instruction)) → Except EmitErr (EmitCtx × List Block)
  | none => .ok (ctx, [])
  | some statements =>
    let st0 : MethodState := ⟨ctx, [⟨"", []⟩, ⟨"", []⟩], 1⟩
    match emitStatements st0 statements with
    | .error e => .error e
    | .ok st => .ok (st.ctx, appendInstr st.blocks 0 (.Br 1))

/-- `register` of the function value for device functions
(emit_llvm.rs:240-242). -/
def registerFuncName (ctx : EmitCtx) : MethodName → Nat → EmitCtx
  | .Kernel _, _ => ctx
  | .Func id, fnVal => registerValue ctx id fnVal

/-- `emit_method` (emit_llvm.rs:217-283). -/
def emitMethod (identMap : IdentMap) (ctx : EmitCtx) (m : Method) :
    Except EmitErr (EmitCtx × FnBuild) :=
  match methodGlobalName identMap m with
  | .error e => .error e
  | .ok nameStr =>
    match getFunctionType (m.funcDecl.returnArguments.map (fun v => v.vType))
        (m.funcDecl.inputArguments.map
          (fun v => getInputArgumentType v.vType v.stateSpace)) with
    | .error e => .error e
    | .ok fnType =>
      let (fnVal, ctx) := freshValue ctx
      let (paramVals, ctx) := freshValues ctx m.funcDecl.inputArguments.length
      let ctx := registerFuncName ctx m.funcDecl.name fnVal
      match emitParamLoop m.funcDecl.name.isKernel ctx
          (m.funcDecl.inputArguments.zip paramVals) 0 with
      | .error e => .error e
      | .ok (ctx, paramNames, attrs) =>
        let callConv :=
          if m.funcDecl.name.isKernel then CallConv.AMDGPUKernel else CallConv.C
        match emitBody ctx m.body with
        | .error e => .error e
        | .ok (ctx, blocks) =>
          .ok (ctx, ⟨nameStr, fnType, fnVal, paramVals, paramNames, attrs,
                     some callConv, blocks⟩)

/-- `Directive2`: a module-level variable directive (whose payload the emitter
never reads before hitting `todo!()`) or a method. -/
inductive Directive2 where
  | Variable
  | Method (m : Method)

/-- The directive loop of `run` (emit_llvm.rs:173-178); the built functions
are the module's contents, in order. -/
def emitAll (identMap : IdentMap) (ctx : EmitCtx) :
    List Directive2 → Except EmitErr (EmitCtx × List FnBuild)
  | [] => .ok (ctx, [])
  | .Variable :: _ => .error .panicTodo
  | .Method m :: rest =>
    match emitMethod identMap ctx m with
    | .error e => .error e
    | .ok (ctx2, fn) =>
      match emitAll identMap ctx2 rest with
      | .error e => .error e
      | .ok (ctx3, fns) => .ok (ctx3, fn :: fns)

/-- The outcome of `run` (emit_llvm.rs:166-184): a bitcode buffer (modelled as
the built module's functions), a fatal abort (`panic!` on verifier rejection),
or a typed translation error returned to the caller. -/
inductive RunOut where
  | Ok (bitcode : List FnBuild)
  | VerifyAbort
  | Err (e : EmitErr)

/-- What `run` did: whether (and which) module text was dumped to standard
error (`LLVMDumpModule`), and the outcome. -/
structure RunTrace where
  stderrDump : Option (List FnBuild)
  outcome : RunOut

/-- `run` (emit_llvm.rs:166-184), parameterised by LLVM's module verifier
verdict (an external oracle): emit every directive, dump the module to
standard error, verify — `panic!` on rejection — and otherwise return the
bitcode written from the module. -/
def run (identMap : IdentMap) (verifier : List FnBuild → Bool)
    (directives : List Directive2) : RunTrace :=
  match emitAll identMap initialCtx directives with
  | .error e => ⟨none, .Err e⟩
  | .ok (_, fns) =>
    ⟨some fns, if verifier fns then .Ok fns else .VerifyAbort⟩

/-! ## Identifier table and scoped resolver (spec §4.1, §4.2) -/

/-- Modelled from the spec: one entry of the identifier table (spec §4.1,
`GlobalStringIdentResolver2`, which lives outside `src/`): an optional source
name and an optional (type, state space) descriptor. Entry `k` of the table
describes identifier `k + 1` (ids are consecutive integers starting at 1). -/
structure IdentEntry where
  name : Option String
  typeSpace : Option (PtxType × StateSpace)
deriving DecidableEq, Repr

/-- A lexical scope: source name → identifier, newest binding first. -/
abbrev Scope := List (String × SpirvWord)

/-- Modelled from the spec: the scoped resolver (spec §4.2, `ScopedResolver`,
which lives outside `src/`): a stack of scopes (innermost first) over the
append-only identifier table. -/
structure ScopedResolver where
  scopes : List Scope
  table : List IdentEntry

/-- Name lookup within a single scope. -/
def scopeLookup (sc : Scope) (name : String) : Option SpirvWord :=
  (sc.find? (fun p => p.1 = name)).map (fun p => p.2)

/-- Modelled from the spec: `start_scope` — push a fresh innermost scope. -/
def ScopedResolver.startScope (r : ScopedResolver) : ScopedResolver :=
  { r with scopes := [] :: r.scopes }

/-- Modelled from the spec: `end_scope` — pop the innermost scope; the
identifier-table entries persist. -/
def ScopedResolver.endScope (r : ScopedResolver) : ScopedResolver :=
  { r with scopes := r.scopes.tail }

/-- Modelled from the spec: `add(name, type_opt)` — introduce `name` in the
innermost scope; fails if already present there; allocates the next
consecutive id and records the descriptor in the table. -/
def ScopedResolver.add (r : ScopedResolver) (name : String)
    (ts : Option (PtxType × StateSpace)) :
    Except TranslateError (SpirvWord × ScopedResolver) :=
  match r.scopes with
  | [] => .error .Unreachable
  | cur :: rest =>
    if (scopeLookup cur name).isSome then .error .Redefinition
    else
      let id := r.table.length + 1
      .ok (id, ⟨((name, id) :: cur) :: rest, r.table ++ [⟨some name, ts⟩]⟩)

/-- Modelled from the spec: `add_or_get_in_current_scope_untyped(name)` — the
existing innermost binding if present, else `add` without a type. -/
def ScopedResolver.addOrGetInCurrentScopeUntyped (r : ScopedResolver)
    (name : String) : Except TranslateError (SpirvWord × ScopedResolver) :=
  match r.scopes with
  | [] => .error .Unreachable
  | cur :: _ =>
    match scopeLookup cur name with
    | some id => .ok (id, r)
    | none => r.add name none

/-- Innermost-outward lookup across the scope stack. -/
def lookupScopes : List Scope → String → Option SpirvWord
  | [], _ => none
  | sc :: rest, name =>
    match scopeLookup sc name with
    | some id => some id
    | none => lookupScopes rest name

/-- Modelled from the spec: `get(name)` — lexical, shadowing lookup; fails if
unresolved. -/
def ScopedResolver.get (r : ScopedResolver) (name : String) :
    Except TranslateError SpirvWord :=
  match lookupScopes r.scopes name with
  | some id => .ok id
  | none => .error .UnknownSymbol

/-- Modelled from the spec: `get_in_current_scope(name)` — innermost scope
only (used for label resolution after hoisting). -/
def ScopedResolver.getInCurrentScope (r : ScopedResolver) (name : String) :
    Except TranslateError SpirvWord :=
  match r.scopes with
  | [] => .error .Unreachable
  | cur :: _ =>
    match scopeLookup cur name with
    | some id => .ok id
    | none => .error .UnknownSymbol

/-! ## The normalize pass (`normalize_identifiers2.rs`) -/

/-- A parsed predicate guard (`ast::PredAt<&str>`). -/
structure PredAtParsed where
  not : Bool
  label : String
deriving DecidableEq, Repr

/-- A normalized predicate guard (`ast::PredAt<SpirvWord>`). -/
structure PredAt where
  not : Bool
  label : SpirvWord
deriving DecidableEq, Repr

/-- `ast::MultiVariable<&str>`: a variable declaration with an optional
multi-variable count (`.reg .u32 %r<N>`). -/
structure MultiVariable where
  var : VariableAst String
  count : Option Nat
deriving DecidableEq, Repr

/-- `ast::Statement<ast::ParsedOperand<&str>>`, the parsed statement forms
walked by `run_statements`. An instruction is modelled as its optional
predicate plus the list of operand names that `ast::visit_map` (an external
`ptx_parser` visitor) feeds through `resolver.get` in source order. -/
inductive PStatement where
  | Label (label : String)
  | Variable (mv : MultiVariable)
  | Instruction (pred : Option PredAtParsed) (operands : List String)
  | Block (block : List PStatement)

/-- A normalized instruction: resolved predicate and resolved operands. -/
abbrev NormInstr := Option PredAt × List SpirvWord

/-- The normalized statement stream produced by the pass. Note the type of
the emitted statements: the `Statement` carrier has no `Block` form. -/
abbrev NormalizedStatement := Statement NormInstr

/-- `run_multivariable`'s expansion loop (normalize_identifiers2.rs:165-181):
`for i in 0..count`, interning `base ++ i` with the cloned descriptor and
pushing one `Statement::Variable` per iteration. `i` is the next index,
`k` the remaining count. -/
def runMultivariableLoop (r : ScopedResolver) (acc : List NormalizedStatement)
    (v : VariableAst String) (i : Nat) :
    Nat → Except TranslateError (ScopedResolver × List NormalizedStatement)
  | 0 => .ok (r, acc)
  | k + 1 =>
    match r.add (v.name ++ toString i) (some (v.vType, v.stateSpace)) with
    | .error e => .error e
    | .ok (ident, r2) =>
      runMultivariableLoop r2
        (acc ++ [.Variable ⟨ident, v.align, v.vType, v.stateSpace, v.arrayInit⟩])
        v (i + 1) k

/-- `run_multivariable` (normalize_identifiers2.rs:160-198). -/
def runMultivariable (r : ScopedResolver) (acc : List NormalizedStatement)
    (mv : MultiVariable) :
    Except TranslateError (ScopedResolver × List NormalizedStatement) :=
  match mv.count with
  | some count => runMultivariableLoop r acc mv.var 0 count
  | none =>
    match r.add mv.var.name (some (mv.var.vType, mv.var.stateSpace)) with
    | .error e => .error e
    | .ok (ident, r2) =>
      .ok (r2, acc ++ [.Variable ⟨ident, mv.var.align, mv.var.vType,
                                  mv.var.stateSpace, mv.var.arrayInit⟩])

/-- The label pre-pass of `run_statements` (normalize_identifiers2.rs:108-115):
introduce every label of the list (top level only) into the current scope,
untyped, before any statement is processed. -/
def prePass (r : ScopedResolver) :
    List PStatement → Except TranslateError ScopedResolver
  | [] => .ok r
  | .Label label :: rest =>
    match r.add label none with
    | .error e => .error e
    | .ok (_, r2) => prePass r2 rest
  | _ :: rest => prePass r rest

/-- Resolution of an optional predicate guard
(normalize_identifiers2.rs:124-131). -/
def resolvePred (r : ScopedResolver) :
    Option PredAtParsed → Except TranslateError (Option PredAt)
  | none => .ok none
  | some p =>
    match r.get p.label with
    | .error e => .error e
    | .ok id => .ok (some ⟨p.not, id⟩)

mutual

/-- `run_statements` (normalize_identifiers2.rs:103-143): the label pre-pass
followed by the main pass, pushing results onto the shared accumulator. -/
def runStatements (r : ScopedResolver) (acc : List NormalizedStatement)
    (statements : List PStatement) :
    Except TranslateError (ScopedResolver × List NormalizedStatement) :=
  match prePass r statements with
  | .error e => .error e
  | .ok r1 => mainPass r1 acc statements

/-- The main pass of `run_statements` (normalize_identifiers2.rs:116-141):
labels resolve through `get_in_current_scope`, variables expand through
`run_multivariable`, instruction predicates and operands resolve through
`get`, and nested blocks recurse through `run_statements` inside a fresh
scope, splicing their output into the same accumulator. -/
def mainPass (r : ScopedResolver) (acc : List NormalizedStatement) :
    List PStatement →
    Except TranslateError (ScopedResolver × List NormalizedStatement)
  | [] => .ok (r, acc)
  | .Label label :: rest =>
    match r.getInCurrentScope label with
    | .error e => .error e
    | .ok id => mainPass r (acc ++ [.Label id]) rest
  | .Variable mv :: rest =>
    match runMultivariable r acc mv with
    | .error e => .error e
    | .ok (r2, acc2) => mainPass r2 acc2 rest
  | .Instruction pred operands :: rest =>
    match resolvePred r pred with
    | .error e => .error e
    | .ok p =>
      match operands.mapM r.get with
      | .error e => .error e
      | .ok ops => mainPass r (acc ++ [.Instruction (p, ops)]) rest
  | .Block block :: rest =>
    match runStatements r.startScope acc block with
    | .error e => .error e
    | .ok (r2, acc2) => mainPass r2.endScope acc2 rest

end

/-! ## Helper definitions for the stated properties -/

/-- The statements a multivariable loop of length `k` appends when the
identifier table already has `tl` entries (ids are consecutive from
`tl + 1`). -/
def expectedVars (v : VariableAst String) (tl : Nat) :
    Nat → List NormalizedStatement
  | 0 => []
  | k + 1 =>
    .Variable ⟨tl + 1, v.align, v.vType, v.stateSpace, v.arrayInit⟩ ::
      expectedVars v (tl + 1) k

/-- A normalized statement is one of the three forms the normalize pass
emits: a variable declaration, a label, or an instruction — in particular,
never a block. -/
def isNormShape : NormalizedStatement → Bool
  | .Variable _ => true
  | .Label _ => true
  | .Instruction _ => true
  | _ => false

/-- The number of `Statement::Variable` entries in an emission-time statement
list. -/
def countVariableStmts (stmts : List (Statement Instruction)) : Nat :=
  stmts.countP (fun s =>
    match s with
    | .Variable _ => true
    | _ => false)

/-- The instruction list of basic block `i` of a block list (empty when the
index is out of range). -/
def blocksInstrsAt (bs : List Block) (i : Nat) : List InstrK :=
  match bs[i]? with
  | some b => b.instrs
  | none => []

/-! ## Address-space and type mapping claims -/

/-- Claim C2: the address-space integer produced for every state space matches
the fixed table — `Reg` and `Local` map to 5, `Generic` to 0, `Global` to 1,
`Shared` to 3, `Const` and `ParamEntry` to 4 — and `Param`, `ParamFunc`,
`SharedCta`, `SharedCluster` each fail with the not-yet-implemented (`Todo`)
error. -/
theorem state_space_mapping :
    getStateSpaceT .Reg = .ok 5 ∧
    getStateSpaceT .Local = .ok 5 ∧
    getStateSpaceT .Generic = .ok 0 ∧
    getStateSpaceT .Global = .ok 1 ∧
    getStateSpaceT .Shared = .ok 3 ∧
    getStateSpaceT .Const = .ok 4 ∧
    getStateSpaceT .ParamEntry = .ok 4 ∧
    getStateSpaceT .Param = .error .Todo ∧
    getStateSpaceT .ParamFunc = .error .Todo ∧
    getStateSpaceT .SharedCta = .error .Todo ∧
    getStateSpaceT .SharedCluster = .error .Todo :=
  ⟨rfl, rfl, rfl, rfl, rfl, rfl, rfl, rfl, rfl, rfl, rfl⟩

/-- Claim C7: for an `Array` type over element scalar `s` (optionally wrapped
in a packed vector of width `k`), the dimensions `[a, b, c]` are applied
right-to-left, innermost first, producing `[a × [b × [c × T]]]`, and an empty
dimension list produces the zero-length array `[0 × T]`. -/
theorem array_type_mapping (vec : Option Nat) (s : ScalarType) (t : LLVMType)
    (a b c : Nat) (h : getScalarType s = .ok t) :
    getType (.Array vec s [a, b, c]) =
      .ok (.ArrayType a (.ArrayType b (.ArrayType c
        (match vec with
         | some k => LLVMType.VectorType k t
         | none => t)))) ∧
    getType (.Array vec s []) =
      .ok (.ArrayType 0
        (match vec with
         | some k => LLVMType.VectorType k t
         | none => t)) := by
  cases vec <;> simp [getType, h]

theorem array_type_mapping_witness :
    getScalarType .U32 = .ok (.IntType 32) ∧
    getType (.Array none .U32 [2, 3, 4]) =
      .ok (.ArrayType 2 (.ArrayType 3 (.ArrayType 4 (.IntType 32)))) ∧
    getType (.Array none .U32 []) = .ok (.ArrayType 0 (.IntType 32)) :=
  ⟨rfl, (array_type_mapping none .U32 (.IntType 32) 2 3 4 rfl).1,
        (array_type_mapping none .U32 (.IntType 32) 2 3 4 rfl).2⟩

/-! ## Mov claim -/

/-- Claim C6: emitting a `Mov` over `.reg` operands appends no LLVM
instruction — the resulting state differs from the input state only in the
resolver, where the destination id is bound to exactly the value currently
registered for the source id (and a fresh binding wins over older ones) — and
emission fails with the `Unreachable` error when the source id has no
registered value. -/
theorem mov_is_pure_rename (st : MethodState) (d : MovDetails) (a : MovArgs) :
    (∀ v, lookupValue st.ctx a.src = some v →
      emitStatement st (.Instruction (.Mov d a)) =
        .ok { st with ctx := registerValue st.ctx a.dst v }) ∧
    (∀ v, lookupValue (registerValue st.ctx a.dst v) a.dst = some v) ∧
    (lookupValue st.ctx a.src = none →
      emitStatement st (.Instruction (.Mov d a)) =
        .error (.translate .Unreachable)) := by
  refine ⟨fun v hv => ?_, fun v => ?_, fun hv => ?_⟩
  · simp [emitStatement, emitInstruction, emitMov, valueOf, hv]
  · simp [lookupValue, registerValue, List.find?]
  · simp [emitStatement, emitInstruction, emitMov, valueOf, hv]

theorem mov_is_pure_rename_witness :
    (emitStatement ⟨⟨[(5, 77)], 100⟩, [], 1⟩
        (.Instruction (.Mov ⟨.Scalar .U64⟩ ⟨9, 5⟩)) =
      .ok ⟨⟨[(9, 77), (5, 77)], 100⟩, [], 1⟩) ∧
    (emitStatement ⟨⟨[], 0⟩, [], 1⟩
        (.Instruction (.Mov ⟨.Scalar .U64⟩ ⟨9, 5⟩)) =
      .error (.translate .Unreachable)) :=
  ⟨(mov_is_pure_rename ⟨⟨[(5, 77)], 100⟩, [], 1⟩ ⟨.Scalar .U64⟩ ⟨9, 5⟩).1 77 rfl,
   (mov_is_pure_rename ⟨⟨[], 0⟩, [], 1⟩ ⟨.Scalar .U64⟩ ⟨9, 5⟩).2.2 rfl⟩

/-! ## Multivariable expansion claim -/

theorem expectedVars_eq_map (v : VariableAst String) :
    ∀ (k tl : Nat), expectedVars v tl k = (List.range k).map (fun j =>
      .Variable ⟨tl + 1 + j, v.align, v.vType, v.stateSpace, v.arrayInit⟩) := by
  intro k
  induction k with
  | zero => intro tl; simp [expectedVars]
  | succ k ih =>
    intro tl
    rw [expectedVars, ih (tl + 1), List.range_succ_eq_map, List.map_cons,
      List.map_map]
    congr 1
    apply List.map_congr_left
    intro a _
    simp only [Function.comp]
    have h : tl + 1 + 1 + a = tl + 1 + Nat.succ a := by omega
    rw [h]

theorem runMultivariableLoop_spec (v : VariableAst String) :
    ∀ (k i : Nat) (r : ScopedResolver) (acc : List NormalizedStatement)
      (r2 : ScopedResolver) (out : List NormalizedStatement),
    runMultivariableLoop r acc v i k = .ok (r2, out) →
    out = acc ++ expectedVars v r.table.length k ∧
    r2.table.length = r.table.length + k ∧
    (∀ j, j < k → r2.table[r.table.length + j]? =
        some ⟨some (v.name ++ toString (i + j)), some (v.vType, v.stateSpace)⟩) ∧
    (∀ p, p < r.table.length → r2.table[p]? = r.table[p]?) := by
  intro k
  induction k with
  | zero =>
    intro i r acc r2 out h
    rw [runMultivariableLoop] at h
    simp only [Except.ok.injEq, Prod.mk.injEq] at h
    obtain ⟨hr, hacc⟩ := h
    subst hr; subst hacc
    simp [expectedVars]
  | succ k ih =>
    intro i r acc r2 out h
    rw [runMultivariableLoop] at h
    rw [ScopedResolver.add] at h
    rcases hsc : r.scopes with _ | ⟨cur, rest⟩
    · rw [hsc] at h; simp at h
    · rw [hsc] at h
      by_cases hdup : (scopeLookup cur (v.name ++ toString i)).isSome
      · simp [hdup] at h
      · simp only [hdup, if_false, Bool.false_eq_true] at h
        have hMid : runMultivariableLoop
            (⟨((v.name ++ toString i, r.table.length + 1) :: cur) :: rest,
              r.table ++ [⟨some (v.name ++ toString i),
                          some (v.vType, v.stateSpace)⟩]⟩ : ScopedResolver)
            (acc ++ [.Variable ⟨r.table.length + 1, v.align, v.vType,
                                v.stateSpace, v.arrayInit⟩]) v (i + 1) k =
            .ok (r2, out) := h
        obtain ⟨hout, hlen, hget, hpres⟩ := ih (i + 1) _ _ r2 out hMid
        have hTL : (r.table ++ [(⟨some (v.name ++ toString i),
            some (v.vType, v.stateSpace)⟩ : IdentEntry)]).length =
            r.table.length + 1 := by simp
        rw [hTL] at hout hlen hget
        refine ⟨?_, by omega, ?_, ?_⟩
        · rw [hout, expectedVars]
          simp [List.append_assoc]
        · intro j hj
          match j with
          | 0 =>
            have hp0 : r.table.length + 0 < r.table.length + 1 := by omega
            rw [show r.table.length + 0 = r.table.length from by omega]
            rw [hpres r.table.length (by rw [hTL]; omega)]
            exact List.getElem?_concat_length r.table _
          | j + 1 =>
            have hg := hget j (by omega)
            rw [show r.table.length + (j + 1) = r.table.length + 1 + j from by omega]
            rw [hg]
            rw [show i + 1 + j = i + (j + 1) from by omega]
        · intro p hp
          rw [hpres p (by rw [hTL]; omega)]
          exact List.getElem?_append_left hp

/-- Claim C5: a multi-variable declaration `base<N>` makes `run_multivariable`
emit exactly N `Statement::Variable` entries in order, whose fresh ids are the
next N consecutive table ids (hence pairwise distinct), each cloning the
declaration's type, state space, alignment and array initializer, and whose
table descriptors carry the names `base0`, `base1`, …, `base(N-1)`; a
declaration without a count emits exactly one variable under the unmodified
base name. -/
theorem multivariable_expansion (r : ScopedResolver)
    (acc : List NormalizedStatement) (mv : MultiVariable) (r2 : ScopedResolver)
    (out : List NormalizedStatement) :
    (∀ N, mv.count = some N →
      runMultivariable r acc mv = .ok (r2, out) →
      out = acc ++ (List.range N).map (fun j =>
        .Variable ⟨r.table.length + 1 + j, mv.var.align, mv.var.vType,
                   mv.var.stateSpace, mv.var.arrayInit⟩) ∧
      ((List.range N).map (fun j => r.table.length + 1 + j)).Nodup ∧
      (∀ j, j < N → r2.table[r.table.length + j]? =
        some ⟨some (mv.var.name ++ toString j),
              some (mv.var.vType, mv.var.stateSpace)⟩)) ∧
    (mv.count = none →
      runMultivariable r acc mv = .ok (r2, out) →
      out = acc ++ [.Variable ⟨r.table.length + 1, mv.var.align, mv.var.vType,
                               mv.var.stateSpace, mv.var.arrayInit⟩] ∧
      r2.table[r.table.length]? =
        some ⟨some mv.var.name, some (mv.var.vType, mv.var.stateSpace)⟩) := by
  constructor
  · intro N hN h
    rw [runMultivariable, hN] at h
    obtain ⟨hout, _, hget, _⟩ := runMultivariableLoop_spec mv.var N 0 r acc r2 out h
    rw [expectedVars_eq_map] at hout
    refine ⟨hout, ?_, ?_⟩
    · exact List.Nodup.map (fun a b hab => by omega) (List.nodup_range N)
    · intro j hj
      have := hget j hj
      simpa using this
  · intro hN h
    rw [runMultivariable, hN] at h
    rw [ScopedResolver.add] at h
    rcases hsc : r.scopes with _ | ⟨cur, rest⟩
    · rw [hsc] at h; simp at h
    · rw [hsc] at h
      by_cases hdup : (scopeLookup cur mv.var.name).isSome
      · simp [hdup] at h
      · simp only [hdup, if_false, Bool.false_eq_true] at h
        simp only [Except.ok.injEq, Prod.mk.injEq] at h
        obtain ⟨hr, hout⟩ := h
        subst hr
        refine ⟨hout.symm, ?_⟩
        simp only []
        exact List.getElem?_concat_length r.table _

theorem multivariable_expansion_witness :
    runMultivariable ⟨[[]], []⟩ []
        ⟨⟨"r", none, .Scalar .U32, .Reg, []⟩, some 2⟩ =
      .ok (⟨[[("r1", 2), ("r0", 1)]],
            [⟨some "r0", some (.Scalar .U32, .Reg)⟩,
             ⟨some "r1", some (.Scalar .U32, .Reg)⟩]⟩,
           [.Variable ⟨1, none, .Scalar .U32, .Reg, []⟩,
            .Variable ⟨2, none, .Scalar .U32, .Reg, []⟩]) ∧
    ([Statement.Variable ⟨1, none, .Scalar .U32, .Reg, []⟩,
      Statement.Variable ⟨2, none, .Scalar .U32, .Reg, []⟩] :
        List NormalizedStatement) =
      [] ++ (List.range 2).map (fun j =>
        (.Variable ⟨0 + 1 + j, none, .Scalar .U32, .Reg, []⟩ :
          NormalizedStatement)) :=
  ⟨rfl,
   ((multivariable_expansion ⟨[[]], []⟩ []
      ⟨⟨"r", none, .Scalar .U32, .Reg, []⟩, some 2⟩ _ _).1 2 rfl rfl).1⟩

/-! ## Scope-stack preservation through the normalize pass -/

theorem scopeLookup_cons (nm : String) (id : SpirvWord) (sc : Scope)
    (x : String) :
    scopeLookup ((nm, id) :: sc) x =
      if nm = x then some id else scopeLookup sc x := by
  by_cases h : nm = x
  · simp [scopeLookup, List.find?, h]
  · simp [scopeLookup, List.find?, h]

theorem add_scope_shape (cur : Scope) (outer : List Scope)
    (tbl : List IdentEntry) (nm : String) (ty : Option (PtxType × StateSpace))
    (id : SpirvWord) (r2 : ScopedResolver)
    (h : ScopedResolver.add ⟨cur :: outer, tbl⟩ nm ty = .ok (id, r2)) :
    ∃ cur2 tbl2, r2 = ⟨cur2 :: outer, tbl2⟩ ∧
      (∀ x v, scopeLookup cur x = some v → scopeLookup cur2 x = some v) := by
  rw [ScopedResolver.add] at h
  by_cases hdup : (scopeLookup cur nm).isSome
  · simp [hdup] at h
  · simp only [hdup, if_false, Bool.false_eq_true] at h
    simp only [Except.ok.injEq, Prod.mk.injEq] at h
    obtain ⟨_, hr⟩ := h
    refine ⟨(nm, tbl.length + 1) :: cur, _, hr.symm, ?_⟩
    intro x v hv
    rw [scopeLookup_cons]
    by_cases hx : nm = x
    · subst hx
      rw [hv] at hdup
      simp at hdup
    · simp [hx, hv]

theorem prePass_scope :
    ∀ (ss : List PStatement) (cur : Scope) (outer : List Scope)
      (tbl : List IdentEntry) (r1 : ScopedResolver),
    prePass ⟨cur :: outer, tbl⟩ ss = .ok r1 →
    ∃ cur1 tbl1, r1 = ⟨cur1 :: outer, tbl1⟩ ∧
      (∀ x v, scopeLookup cur x = some v → scopeLookup cur1 x = some v) := by
  intro ss
  induction ss with
  | nil =>
    intro cur outer tbl r1 h
    rw [prePass] at h
    simp only [Except.ok.injEq] at h
    exact ⟨cur, tbl, h.symm, fun x v hv => hv⟩
  | cons s rest ih =>
    intro cur outer tbl r1 h
    cases s with
    | Label l =>
      rw [prePass] at h
      cases hadd : ScopedResolver.add ⟨cur :: outer, tbl⟩ l none with
      | error e => rw [hadd] at h; simp at h
      | ok p =>
        obtain ⟨id0, rmid⟩ := p
        rw [hadd] at h
        obtain ⟨cur2, tbl2, hr2, hpres⟩ :=
          add_scope_shape cur outer tbl l none id0 rmid (by rw [hadd])
        rw [hr2] at h
        obtain ⟨cur1, tbl1, hr1, hpres1⟩ := ih cur2 outer tbl2 r1 h
        exact ⟨cur1, tbl1, hr1, fun x v hv => hpres1 x v (hpres x v hv)⟩
    | Variable mv =>
      exact ih cur outer tbl r1 h
    | Instruction pred ops =>
      exact ih cur outer tbl r1 h
    | Block b =>
      exact ih cur outer tbl r1 h

theorem runMultivariableLoop_scope (v : VariableAst String) :
    ∀ (k i : Nat) (cur : Scope) (outer : List Scope) (tbl : List IdentEntry)
      (acc : List NormalizedStatement) (r2 : ScopedResolver)
      (out : List NormalizedStatement),
    runMultivariableLoop ⟨cur :: outer, tbl⟩ acc v i k = .ok (r2, out) →
    ∃ cur2 tbl2, r2 = ⟨cur2 :: outer, tbl2⟩ ∧
      (∀ x w, scopeLookup cur x = some w → scopeLookup cur2 x = some w) := by
  intro k
  induction k with
  | zero =>
    intro i cur outer tbl acc r2 out h
    rw [runMultivariableLoop] at h
    simp only [Except.ok.injEq, Prod.mk.injEq] at h
    exact ⟨cur, tbl, h.1.symm, fun x w hw => hw⟩
  | succ k ih =>
    intro i cur outer tbl acc r2 out h
    rw [runMultivariableLoop] at h
    cases hadd : ScopedResolver.add ⟨cur :: outer, tbl⟩
        (v.name ++ toString i) (some (v.vType, v.stateSpace)) with
    | error e => rw [hadd] at h; simp at h
    | ok p =>
      obtain ⟨id0, rmid⟩ := p
      rw [hadd] at h
      obtain ⟨cur2, tbl2, hr2, hpres⟩ :=
        add_scope_shape cur outer tbl _ _ id0 rmid (by rw [hadd])
      rw [hr2] at h
      obtain ⟨cur3, tbl3, hr3, hpres3⟩ := ih (i + 1) cur2 outer tbl2 _ r2 out h
      exact ⟨cur3, tbl3, hr3, fun x w hw => hpres3 x w (hpres x w hw)⟩

theorem runMultivariable_scope (mv : MultiVariable) (cur : Scope)
    (outer : List Scope) (tbl : List IdentEntry)
    (acc : List NormalizedStatement) (r2 : ScopedResolver)
    (out : List NormalizedStatement)
    (h : runMultivariable ⟨cur :: outer, tbl⟩ acc mv = .ok (r2, out)) :
    ∃ cur2 tbl2, r2 = ⟨cur2 :: outer, tbl2⟩ ∧
      (∀ x w, scopeLookup cur x = some w → scopeLookup cur2 x = some w) := by
  rw [runMultivariable] at h
  cases hc : mv.count with
  | some n =>
    rw [hc] at h
    exact runMultivariableLoop_scope mv.var n 0 cur outer tbl acc r2 out h
  | none =>
    rw [hc] at h
    cases hadd : ScopedResolver.add ⟨cur :: outer, tbl⟩ mv.var.name
        (some (mv.var.vType, mv.var.stateSpace)) with
    | error e => rw [hadd] at h; simp at h
    | ok p =>
      obtain ⟨id0, rmid⟩ := p
      rw [hadd] at h
      simp only [Except.ok.injEq, Prod.mk.injEq] at h
      obtain ⟨cur2, tbl2, hr2, hpres⟩ :=
        add_scope_shape cur outer tbl _ _ id0 rmid (by rw [hadd])
      rw [← h.1, hr2]
      exact ⟨cur2, tbl2, rfl, hpres⟩

mutual

theorem runStatements_scope (ss : List PStatement) (cur : Scope)
    (outer : List Scope) (tbl : List IdentEntry)
    (acc : List NormalizedStatement) (r2 : ScopedResolver)
    (out : List NormalizedStatement)
    (h : runStatements ⟨cur :: outer, tbl⟩ acc ss = .ok (r2, out)) :
    ∃ cur2 tbl2, r2 = ⟨cur2 :: outer, tbl2⟩ ∧
      (∀ x w, scopeLookup cur x = some w → scopeLookup cur2 x = some w) := by
  rw [runStatements] at h
  cases hp : prePass ⟨cur :: outer, tbl⟩ ss with
  | error e => rw [hp] at h; simp at h
  | ok r1 =>
    rw [hp] at h
    obtain ⟨cur1, tbl1, hr1, hpres1⟩ := prePass_scope ss cur outer tbl r1 hp
    rw [hr1] at h
    obtain ⟨cur2, tbl2, hr2, hpres2⟩ :=
      mainPass_scope ss cur1 outer tbl1 acc r2 out h
    exact ⟨cur2, tbl2, hr2, fun x w hw => hpres2 x w (hpres1 x w hw)⟩

theorem mainPass_scope (ss : List PStatement) (cur : Scope)
    (outer : List Scope) (tbl : List IdentEntry)
    (acc : List NormalizedStatement) (r2 : ScopedResolver)
    (out : List NormalizedStatement)
    (h : mainPass ⟨cur :: outer, tbl⟩ acc ss = .ok (r2, out)) :
    ∃ cur2 tbl2, r2 = ⟨cur2 :: outer, tbl2⟩ ∧
      (∀ x w, scopeLookup cur x = some w → scopeLookup cur2 x = some w) := by
  match ss with
  | [] =>
    rw [mainPass] at h
    simp only [Except.ok.injEq, Prod.mk.injEq] at h
    exact ⟨cur, tbl, h.1.symm, fun x w hw => hw⟩
  | .Label l :: rest =>
    rw [mainPass] at h
    cases hg : ScopedResolver.getInCurrentScope ⟨cur :: outer, tbl⟩ l with
    | error e => rw [hg] at h; simp at h
    | ok id =>
      rw [hg] at h
      exact mainPass_scope rest cur outer tbl _ r2 out h
  | .Variable mv :: rest =>
    rw [mainPass] at h
    cases hmv : runMultivariable ⟨cur :: outer, tbl⟩ acc mv with
    | error e => rw [hmv] at h; simp at h
    | ok p =>
      obtain ⟨rM, accM⟩ := p
      rw [hmv] at h
      obtain ⟨curM, tblM, hrM, hpresM⟩ :=
        runMultivariable_scope mv cur outer tbl acc rM accM (by rw [hmv])
      rw [hrM] at h
      obtain ⟨cur2, tbl2, hr2, hpres2⟩ :=
        mainPass_scope rest curM outer tblM accM r2 out h
      exact ⟨cur2, tbl2, hr2, fun x w hw => hpres2 x w (hpresM x w hw)⟩
  | .Instruction pred ops :: rest =>
    rw [mainPass] at h
    cases hp : resolvePred ⟨cur :: outer, tbl⟩ pred with
    | error e => rw [hp] at h; simp at h
    | ok p =>
      rw [hp] at h
      cases hops : ops.mapM (ScopedResolver.get ⟨cur :: outer, tbl⟩) with
      | error e => rw [hops] at h; simp at h
      | ok rops =>
        rw [hops] at h
        exact mainPass_scope rest cur outer tbl _ r2 out h
  | .Block b :: rest =>
    rw [mainPass] at h
    cases hb : runStatements (ScopedResolver.startScope ⟨cur :: outer, tbl⟩)
        acc b with
    | error e => rw [hb] at h; simp at h
    | ok p =>
      obtain ⟨rB, accB⟩ := p
      rw [hb] at h
      obtain ⟨curB, tblB, hrB, _⟩ :=
        runStatements_scope b [] (cur :: outer) tbl acc rB accB (by rw [← hb]; rfl)
      have hEnd : rB.endScope = ⟨cur :: outer, tblB⟩ := by
        rw [hrB]; rfl
      have h2 : mainPass rB.endScope accB rest = .ok (r2, out) := h
      rw [hEnd] at h2
      exact mainPass_scope rest cur outer tblB accB r2 out h2

end

/-! ## Label hoisting claim -/

theorem get_of_head_binding (cur : Scope) (outer : List Scope)
    (tbl : List IdentEntry) (L : String) (n : SpirvWord)
    (h : scopeLookup cur L = some n) :
    ScopedResolver.get ⟨cur :: outer, tbl⟩ L = .ok n := by
  rw [ScopedResolver.get]
  simp only [lookupScopes, h]

theorem getInCurrentScope_of_head_binding (cur : Scope) (outer : List Scope)
    (tbl : List IdentEntry) (L : String) (n : SpirvWord)
    (h : scopeLookup cur L = some n) :
    ScopedResolver.getInCurrentScope ⟨cur :: outer, tbl⟩ L = .ok n := by
  rw [ScopedResolver.getInCurrentScope]
  simp only [h]

theorem prePass_label_bound :
    ∀ (ss : List PStatement) (cur : Scope) (outer : List Scope)
      (tbl : List IdentEntry) (r1 : ScopedResolver) (L : String),
    PStatement.Label L ∈ ss →
    prePass ⟨cur :: outer, tbl⟩ ss = .ok r1 →
    ∃ n cur1 tbl1, r1 = ⟨cur1 :: outer, tbl1⟩ ∧ scopeLookup cur1 L = some n := by
  intro ss
  induction ss with
  | nil =>
    intro cur outer tbl r1 L hL
    simp at hL
  | cons s rest ih =>
    intro cur outer tbl r1 L hL h
    cases s with
    | Label l =>
      rw [prePass] at h
      cases hadd : ScopedResolver.add ⟨cur :: outer, tbl⟩ l none with
      | error e => rw [hadd] at h; simp at h
      | ok p =>
        obtain ⟨id0, rmid⟩ := p
        rw [hadd] at h
        by_cases hls : L = l
        · subst hls
          rw [ScopedResolver.add] at hadd
          by_cases hdup : (scopeLookup cur L).isSome
          · simp [hdup] at hadd
          · simp only [hdup, if_false, Bool.false_eq_true] at hadd
            simp only [Except.ok.injEq, Prod.mk.injEq] at hadd
            obtain ⟨_, hr⟩ := hadd
            rw [← hr] at h
            obtain ⟨cur1, tbl1, hr1, hpres1⟩ :=
              prePass_scope rest ((L, tbl.length + 1) :: cur) outer _ r1 h
            refine ⟨tbl.length + 1, cur1, tbl1, hr1, ?_⟩
            apply hpres1
            rw [scopeLookup_cons]
            simp
        · rcases List.mem_cons.mp hL with heq | hmem
          · exact absurd (PStatement.Label.inj heq.symm).symm hls
          · obtain ⟨cur2, tbl2, hr2, _⟩ :=
              add_scope_shape cur outer tbl l none id0 rmid (by rw [hadd])
            rw [hr2] at h
            exact ih cur2 outer tbl2 r1 L hmem h
    | Variable mv =>
      rcases List.mem_cons.mp hL with heq | hmem
      · exact absurd heq (by simp)
      · exact ih cur outer tbl r1 L hmem h
    | Instruction pred ops =>
      rcases List.mem_cons.mp hL with heq | hmem
      · exact absurd heq (by simp)
      · exact ih cur outer tbl r1 L hmem h
    | Block b =>
      rcases List.mem_cons.mp hL with heq | hmem
      · exact absurd heq (by simp)
      · exact ih cur outer tbl r1 L hmem h

/-- Claim C4: after the label pre-pass over a function body that declares
label `L`, the current scope binds `L` to a fixed id `n`, and the main pass
preserves that binding through any successfully processed statements, so an
instruction operand referring to `L` (resolved through `get`, after any
prefix of the body) and the label's own declaration (resolved through
`get_in_current_scope`, after any prefix of the body) produce the same id
`n` — in particular, forward references to later labels resolve correctly. -/
theorem label_forward_reference (stmts p1 p2 : List PStatement) (L : String)
    (cur : Scope) (outer : List Scope) (tbl : List IdentEntry)
    (r1 rA rB : ScopedResolver)
    (acc1 acc2 accA accB : List NormalizedStatement)
    (hL : PStatement.Label L ∈ stmts)
    (hpre : prePass ⟨cur :: outer, tbl⟩ stmts = .ok r1)
    (h1 : mainPass r1 acc1 p1 = .ok (rA, accA))
    (h2 : mainPass r1 acc2 p2 = .ok (rB, accB)) :
    ∃ n, rA.get L = .ok n ∧ rB.getInCurrentScope L = .ok n ∧
      mainPass rA accA [.Instruction none [L]] =
        .ok (rA, accA ++ [.Instruction (none, [n])]) ∧
      mainPass rB accB [.Label L] = .ok (rB, accB ++ [.Label n]) := by
  obtain ⟨n, cur1, tbl1, hr1, hbound⟩ :=
    prePass_label_bound stmts cur outer tbl r1 L hL hpre
  subst hr1
  obtain ⟨curA, tblA, hrA, hpresA⟩ :=
    mainPass_scope p1 cur1 outer tbl1 acc1 rA accA h1
  obtain ⟨curB, tblB, hrB, hpresB⟩ :=
    mainPass_scope p2 cur1 outer tbl1 acc2 rB accB h2
  have hgetA : rA.get L = .ok n := by
    rw [hrA]
    exact get_of_head_binding curA outer tblA L n (hpresA L n hbound)
  have hgetB : rB.getInCurrentScope L = .ok n := by
    rw [hrB]
    exact getInCurrentScope_of_head_binding curB outer tblB L n (hpresB L n hbound)
  refine ⟨n, hgetA, hgetB, ?_, ?_⟩
  · have hops : [L].mapM rA.get = .ok [n] := by
      simp [List.mapM, List.mapM.loop, hgetA]
    simp only [mainPass, resolvePred, hops]
  · simp only [mainPass, hgetB]

theorem label_forward_reference_witness :
    ScopedResolver.get ⟨[[("l", 1)]], [⟨some "l", none⟩]⟩ "l" =
      ScopedResolver.getInCurrentScope
        ⟨[[("l", 1)]], [⟨some "l", none⟩]⟩ "l" ∧
    prePass ⟨[[]], []⟩ [.Instruction none ["l"], .Label "l"] =
      .ok ⟨[[("l", 1)]], [⟨some "l", none⟩]⟩ := by
  refine ⟨?_, rfl⟩
  obtain ⟨n, hget, hcur, _, _⟩ :=
    label_forward_reference [.Instruction none ["l"], .Label "l"] []
      [.Instruction none ["l"]] "l" [] [] []
      ⟨[[("l", 1)]], [⟨some "l", none⟩]⟩
      ⟨[[("l", 1)]], [⟨some "l", none⟩]⟩
      ⟨[[("l", 1)]], [⟨some "l", none⟩]⟩
      [] [] [] [.Instruction (none, [1])]
      (by simp) rfl (by simp only [mainPass])
      (by simp only [mainPass, resolvePred]
          simp [List.mapM, List.mapM.loop, ScopedResolver.get, lookupScopes,
            scopeLookup, List.find?])
  rw [hget, hcur]

/-! ## No blocks in normalized output claim -/

theorem expectedVars_shape (v : VariableAst String) :
    ∀ (k tl : Nat) (s : NormalizedStatement),
    s ∈ expectedVars v tl k → isNormShape s = true := by
  intro k
  induction k with
  | zero => intro tl s hs; simp [expectedVars] at hs
  | succ k ih =>
    intro tl s hs
    rw [expectedVars] at hs
    rcases List.mem_cons.mp hs with heq | hmem
    · subst heq; rfl
    · exact ih (tl + 1) s hmem

theorem runMultivariable_shape (r : ScopedResolver)
    (acc : List NormalizedStatement) (mv : MultiVariable)
    (r2 : ScopedResolver) (out : List NormalizedStatement)
    (h : runMultivariable r acc mv = .ok (r2, out)) :
    ∀ s ∈ out, s ∈ acc ∨ isNormShape s = true := by
  rw [runMultivariable] at h
  cases hc : mv.count with
  | some n =>
    rw [hc] at h
    obtain ⟨hout, _, _, _⟩ := runMultivariableLoop_spec mv.var n 0 r acc r2 out h
    intro s hs
    rw [hout] at hs
    rcases List.mem_append.mp hs with hmem | hmem
    · exact Or.inl hmem
    · exact Or.inr (expectedVars_shape mv.var n r.table.length s hmem)
  | none =>
    rw [hc] at h
    cases hadd : r.add mv.var.name (some (mv.var.vType, mv.var.stateSpace)) with
    | error e => rw [hadd] at h; simp at h
    | ok p =>
      obtain ⟨id0, rmid⟩ := p
      rw [hadd] at h
      simp only [Except.ok.injEq, Prod.mk.injEq] at h
      intro s hs
      rw [← h.2] at hs
      rcases List.mem_append.mp hs with hmem | hmem
      · exact Or.inl hmem
      · rcases List.mem_singleton.mp hmem with heq
        subst heq; exact Or.inr rfl

mutual

theorem runStatements_shape (ss : List PStatement) (r : ScopedResolver)
    (acc : List NormalizedStatement) (r2 : ScopedResolver)
    (out : List NormalizedStatement)
    (h : runStatements r acc ss = .ok (r2, out)) :
    ∀ s ∈ out, s ∈ acc ∨ isNormShape s = true := by
  rw [runStatements] at h
  cases hp : prePass r ss with
  | error e => rw [hp] at h; simp at h
  | ok r1 =>
    rw [hp] at h
    exact mainPass_shape ss r1 acc r2 out h

theorem mainPass_shape (ss : List PStatement) (r : ScopedResolver)
    (acc : List NormalizedStatement) (r2 : ScopedResolver)
    (out : List NormalizedStatement)
    (h : mainPass r acc ss = .ok (r2, out)) :
    ∀ s ∈ out, s ∈ acc ∨ isNormShape s = true := by
  match ss with
  | [] =>
    rw [mainPass] at h
    simp only [Except.ok.injEq, Prod.mk.injEq] at h
    intro s hs
    rw [← h.2] at hs
    exact Or.inl hs
  | .Label l :: rest =>
    rw [mainPass] at h
    cases hg : r.getInCurrentScope l with
    | error e => rw [hg] at h; simp at h
    | ok id =>
      rw [hg] at h
      intro s hs
      rcases mainPass_shape rest r _ r2 out h s hs with hmem | hshape
      · rcases List.mem_append.mp hmem with hmem2 | hmem2
        · exact Or.inl hmem2
        · rcases List.mem_singleton.mp hmem2 with heq
          subst heq; exact Or.inr rfl
      · exact Or.inr hshape
  | .Variable mv :: rest =>
    rw [mainPass] at h
    cases hmv : runMultivariable r acc mv with
    | error e => rw [hmv] at h; simp at h
    | ok p =>
      obtain ⟨rM, accM⟩ := p
      rw [hmv] at h
      intro s hs
      rcases mainPass_shape rest rM accM r2 out h s hs with hmem | hshape
      · exact runMultivariable_shape r acc mv rM accM hmv s hmem
      · exact Or.inr hshape
  | .Instruction pred ops :: rest =>
    rw [mainPass] at h
    cases hp : resolvePred r pred with
    | error e => rw [hp] at h; simp at h
    | ok p =>
      rw [hp] at h
      cases hops : ops.mapM r.get with
      | error e => rw [hops] at h; simp at h
      | ok rops =>
        rw [hops] at h
        intro s hs
        rcases mainPass_shape rest r _ r2 out h s hs with hmem | hshape
        · rcases List.mem_append.mp hmem with hmem2 | hmem2
          · exact Or.inl hmem2
          · rcases List.mem_singleton.mp hmem2 with heq
            subst heq; exact Or.inr rfl
        · exact Or.inr hshape
  | .Block b :: rest =>
    rw [mainPass] at h
    cases hb : runStatements r.startScope acc b with
    | error e => rw [hb] at h; simp at h
    | ok p =>
      obtain ⟨rB, accB⟩ := p
      rw [hb] at h
      intro s hs
      rcases mainPass_shape rest rB.endScope accB r2 out h s hs with hmem | hshape
      · exact runStatements_shape b r.startScope acc rB accB hb s hmem
      · exact Or.inr hshape

end

/-- Claim C10: the normalized statement stream contains no `Block` statement:
every statement a successful `run_statements` outputs is a variable, a label,
or an instruction; and the main pass resolves a nested block's statements
inside a fresh scope (`start_scope` before, `end_scope` after) while splicing
their normalized forms inline, in order, into the same flat accumulator. -/
theorem no_blocks_in_output (r : ScopedResolver) (stmts : List PStatement)
    (r2 : ScopedResolver) (out : List NormalizedStatement)
    (h : runStatements r [] stmts = .ok (r2, out)) :
    (∀ s ∈ out, isNormShape s = true) ∧
    (∀ (b rest : List PStatement) (r0 : ScopedResolver)
       (acc : List NormalizedStatement),
      mainPass r0 acc (.Block b :: rest) =
        match runStatements r0.startScope acc b with
        | .error e => .error e
        | .ok (rInner, acc2) => mainPass rInner.endScope acc2 rest) := by
  constructor
  · intro s hs
    rcases runStatements_shape stmts r [] r2 out h s hs with hmem | hshape
    · simp at hmem
    · exact hshape
  · intro b rest r0 acc
    rw [mainPass]

theorem no_blocks_in_output_witness :
    runStatements ⟨[[]], []⟩ [] [.Block [.Label "x"]] =
      .ok (⟨[[]], [⟨some "x", none⟩]⟩, [.Label 1]) ∧
    isNormShape (.Label 1) = true := by
  have hrun : runStatements ⟨[[]], []⟩ [] [.Block [.Label "x"]] =
      .ok (⟨[[]], [⟨some "x", none⟩]⟩, [.Label 1]) := by
    simp only [runStatements, mainPass, prePass, ScopedResolver.startScope,
      ScopedResolver.endScope, ScopedResolver.add,
      ScopedResolver.getInCurrentScope, scopeLookup, List.find?]
    rfl
  exact ⟨hrun,
    (no_blocks_in_output ⟨[[]], []⟩ [.Block [.Label "x"]]
      ⟨[[]], [⟨some "x", none⟩]⟩ [.Label 1] hrun).1 (.Label 1) (by simp)⟩

/-! ## Known-gap failure claims -/

/-- Claim C8 counterexample: at the packed half scalar type `u16x2` the type
mapper fails by a `todo!()` panic (`panicTodo`), which is not the typed
`Todo` translation error the claim asserts — the source's `get_scalar_type`
panics instead of returning `Err(TranslateError::Todo)`. -/
theorem known_gaps_counterexample :
    getScalarType ScalarType.U16x2 = .error .panicTodo ∧
    EmitErr.panicTodo ≠ EmitErr.translate .Todo ∧
    (getScalarType ScalarType.U16x2 ≠ .error (.translate .Todo)) :=
  ⟨rfl, by decide, by simp [getScalarType]⟩

/-- Claim C8 (amended): every listed gap construct makes translation fail
with no partial output, but the failure mode differs: the state spaces
`Param`/`ParamFunc`/`SharedCta`/`SharedCluster` fail with the typed `Todo`
error, while packed half scalar types, non-`Weak` memory qualifiers on
`ld`/`st`, non-coherent loads, module-level variable directives, and
conversion kinds other than `BitToPtr` abort via a `todo!()` panic rather
than a typed error; a typed error from a method emission propagates unchanged
to `run`'s caller. -/
theorem known_gaps_fail :
    (getStateSpaceT .Param = .error .Todo ∧
     getStateSpaceT .ParamFunc = .error .Todo ∧
     getStateSpaceT .SharedCta = .error .Todo ∧
     getStateSpaceT .SharedCluster = .error .Todo) ∧
    (getScalarType .U16x2 = .error .panicTodo ∧
     getScalarType .S16x2 = .error .panicTodo ∧
     getScalarType .F16x2 = .error .panicTodo ∧
     getScalarType .BF16x2 = .error .panicTodo) ∧
    (∀ (st : MethodState) (d : LdDetails) (a : LdArgs),
      d.nonCoherent = true ∨ d.qualifier ≠ .Weak →
      emitInstruction st (.Ld d a) = .error .panicTodo) ∧
    (∀ (st : MethodState) (d : StData) (a : StArgs) (p v : Nat),
      lookupValue st.ctx a.src1 = some p →
      lookupValue st.ctx a.src2 = some v →
      d.qualifier ≠ .Weak →
      emitInstruction st (.St d a) = .error .panicTodo) ∧
    (∀ (identMap : IdentMap) (verifier : List FnBuild → Bool)
       (rest : List Directive2),
      run identMap verifier (.Variable :: rest) = ⟨none, .Err .panicTodo⟩) ∧
    (∀ (st : MethodState) (c : ImplicitConversion),
      c.kind = .Default ∨ c.kind = .SignExtend ∨ c.kind = .PtrToPtr ∨
        c.kind = .AddressOf →
      emitStatement st (.Conversion c) = .error .panicTodo) ∧
    (∀ (identMap : IdentMap) (verifier : List FnBuild → Bool) (m : Method)
       (rest : List Directive2) (e : EmitErr),
      emitMethod identMap initialCtx m = .error e →
      run identMap verifier (.Method m :: rest) = ⟨none, .Err e⟩) := by
  refine ⟨⟨rfl, rfl, rfl, rfl⟩, ⟨rfl, rfl, rfl, rfl⟩, ?_, ?_, ?_, ?_, ?_⟩
  · intro st d a hgap
    rcases hgap with hnc | hq
    · simp [emitInstruction, emitLd, hnc]
    · cases hnc : d.nonCoherent
      · simp [emitInstruction, emitLd, hnc, hq]
      · simp [emitInstruction, emitLd, hnc]
  · intro st d a p v hp hv hq
    simp [emitInstruction, emitSt, valueOf, hp, hv, hq]
  · intro identMap verifier rest
    rfl
  · intro st c hk
    rcases hk with hk | hk | hk | hk <;> simp [emitStatement, emitConversion, hk]
  · intro identMap verifier m rest e h
    simp [run, emitAll, h]

theorem known_gaps_fail_witness :
    (emitInstruction ⟨⟨[], 0⟩, [], 1⟩
        (.Ld ⟨.Volatile, false, .Scalar .U64⟩ ⟨1, 2⟩) = .error .panicTodo) ∧
    (emitInstruction ⟨⟨[(1, 10), (2, 20)], 30⟩, [], 1⟩
        (.St ⟨.Volatile⟩ ⟨1, 2⟩) = .error .panicTodo) ∧
    (run (fun _ => none) (fun _ => true) [.Variable] = ⟨none, .Err .panicTodo⟩) ∧
    (emitStatement ⟨⟨[], 0⟩, [], 1⟩
        (.Conversion ⟨1, 2, .Generic, .Default⟩) = .error .panicTodo) ∧
    (run (fun _ => none) (fun _ => true)
        [.Method ⟨⟨.Func 0, [], []⟩, none, none⟩] =
      ⟨none, .Err (.translate .Unreachable)⟩) := by
  refine ⟨?_, ?_, ?_, ?_, ?_⟩
  · exact known_gaps_fail.2.2.1 ⟨⟨[], 0⟩, [], 1⟩ ⟨.Volatile, false, .Scalar .U64⟩
      ⟨1, 2⟩ (Or.inr (by decide))
  · exact known_gaps_fail.2.2.2.1 ⟨⟨[(1, 10), (2, 20)], 30⟩, [], 1⟩ ⟨.Volatile⟩
      ⟨1, 2⟩ 10 20 rfl rfl (by decide)
  · exact known_gaps_fail.2.2.2.2.1 (fun _ => none) (fun _ => true) []
  · exact known_gaps_fail.2.2.2.2.2.1 ⟨⟨[], 0⟩, [], 1⟩ ⟨1, 2, .Generic, .Default⟩
      (Or.inl rfl)
  · exact known_gaps_fail.2.2.2.2.2.2 (fun _ => none) (fun _ => true)
      ⟨⟨.Func 0, [], []⟩, none, none⟩ [] (.translate .Unreachable) rfl

/-! ## Verifier gate claim -/

/-- Claim C9: `run` returns a bitcode buffer only when the fully-built module
passes LLVM's verifier; when emission succeeded but the verifier rejects the
module, the run is a fatal abort (the `VerifyAbort` outcome of the `panic!`,
not a typed `Err`), and the module was dumped to standard error (the dump
happens unconditionally before verification, so in particular on rejection). -/
theorem verifier_gate (identMap : IdentMap) (verifier : List FnBuild → Bool)
    (ds : List Directive2) :
    (∀ fns, (run identMap verifier ds).outcome = .Ok fns →
      verifier fns = true ∧
      (run identMap verifier ds).stderrDump = some fns) ∧
    (∀ ctx fns, emitAll identMap initialCtx ds = .ok (ctx, fns) →
      verifier fns = false →
      run identMap verifier ds = ⟨some fns, .VerifyAbort⟩ ∧
      ∀ e, (run identMap verifier ds).outcome ≠ .Err e) := by
  constructor
  · intro fns hok
    cases hall : emitAll identMap initialCtx ds with
    | error e =>
      simp [run, hall] at hok
    | ok p =>
      obtain ⟨ctx, built⟩ := p
      simp only [run, hall] at hok ⊢
      cases hv : verifier built
      · rw [hv] at hok
        simp at hok
      · rw [hv] at hok
        simp only [if_true] at hok
        have hbf : built = fns := by
          by_contra hne
          simp [hne] at hok
        subst hbf
        exact ⟨hv, rfl⟩
  · intro ctx fns hall hv
    constructor
    · simp [run, hall, hv]
    · intro e h
      simp [run, hall, hv] at h

theorem verifier_gate_witness :
    run (fun _ => none) (fun _ => false) [] = ⟨some [], .VerifyAbort⟩ :=
  ((verifier_gate (fun _ => none) (fun _ => false) []).2 initialCtx [] rfl
    rfl).1

/-! ## Kernel calling-convention and byref-attribute claim -/

theorem freshValues_length : ∀ (n : Nat) (ctx : EmitCtx),
    (freshValues ctx n).1.length = n := by
  intro n
  induction n with
  | zero => intro ctx; rfl
  | succ n ih =>
    intro ctx
    rw [freshValues]
    simp [ih]

theorem zip_getElem_some {α β : Type} :
    ∀ (l1 : List α) (l2 : List β) (j : Nat) (a : α),
    l1[j]? = some a → j < l2.length →
    ∃ b, (l1.zip l2)[j]? = some (a, b) := by
  intro l1
  induction l1 with
  | nil => intro l2 j a h; simp at h
  | cons x xs ih =>
    intro l2 j a h hj
    cases l2 with
    | nil => simp at hj
    | cons y ys =>
      cases j with
      | zero =>
        simp at h
        subst h
        exact ⟨y, by simp⟩
      | succ j =>
        simp at h
        simp at hj
        obtain ⟨b, hb⟩ := ih ys j a h hj
        exact ⟨b, by simpa using hb⟩

theorem emitParamLoop_attrs :
    ∀ (ps : List (VariableAst SpirvWord × Nat)) (isKer : Bool) (ctx : EmitCtx)
      (i : Nat) (ctx2 : EmitCtx) (nms : List String)
      (attrs : List (Nat × LLVMType)),
    emitParamLoop isKer ctx ps i = .ok (ctx2, nms, attrs) →
    (isKer = false → attrs = []) ∧
    (isKer = true →
      attrs.length = ps.length ∧
      ∀ j v pv, ps[j]? = some (v, pv) →
        ∃ t, getType v.vType = .ok t ∧ attrs[j]? = some (i + j + 1, t)) := by
  intro ps
  induction ps with
  | nil =>
    intro isKer ctx i ctx2 nms attrs h
    rw [emitParamLoop] at h
    simp only [Except.ok.injEq, Prod.mk.injEq] at h
    refine ⟨fun _ => h.2.2.symm, fun _ => ?_⟩
    rw [← h.2.2]
    exact ⟨rfl, fun j v pv hj => by simp at hj⟩
  | cons hd rest ih =>
    intro isKer ctx i ctx2 nms attrs h
    obtain ⟨v, pv⟩ := hd
    rw [emitParamLoop] at h
    cases isKer with
    | false =>
      simp only [if_false, Bool.false_eq_true] at h
      cases hrec : emitParamLoop false (registerValue ctx v.name pv) rest (i + 1) with
      | error e => rw [hrec] at h; simp at h
      | ok q =>
        obtain ⟨ctxq, nmsq, attrsq⟩ := q
        rw [hrec] at h
        simp only [Except.ok.injEq, Prod.mk.injEq] at h
        obtain ⟨hattrs0⟩ := (ih false _ (i + 1) ctxq nmsq attrsq hrec)
        refine ⟨fun _ => ?_, fun hk => by simp at hk⟩
        rw [← h.2.2, hattrs0 rfl]
        rfl
    | true =>
      simp only [if_true] at h
      cases hty : getType v.vType with
      | error e => rw [hty] at h; simp at h
      | ok t =>
        rw [hty] at h
        cases hrec : emitParamLoop true (registerValue ctx v.name pv) rest (i + 1) with
        | error e => rw [hrec] at h; simp at h
        | ok q =>
          obtain ⟨ctxq, nmsq, attrsq⟩ := q
          rw [hrec] at h
          simp only [Except.ok.injEq, Prod.mk.injEq] at h
          obtain ⟨_, hkr⟩ := ih true _ (i + 1) ctxq nmsq attrsq hrec
          obtain ⟨hlen, hidx⟩ := hkr rfl
          refine ⟨fun hf => by simp at hf, fun _ => ?_⟩
          rw [← h.2.2]
          constructor
          · simp [hlen]
          · intro j w pw hj
            cases j with
            | zero =>
              simp at hj
              obtain ⟨hw, _⟩ := hj
              subst hw
              exact ⟨t, hty, by simp⟩
            | succ j =>
              simp at hj
              obtain ⟨t2, ht2, hat2⟩ := hidx j w pw hj
              refine ⟨t2, ht2, ?_⟩
              have : i + 1 + j + 1 = i + (j + 1) + 1 := by omega
              rw [this] at hat2
              simpa using hat2

/-- Claim C1: an emitted method whose PTX declaration is a kernel gets the
AMDGPU-kernel calling convention and, for every input parameter at position
`j`, a `byref(T)` type attribute at attribute index `j + 1`, where `T` is the
LLVM mapping (`get_type`) of the parameter's declared PTX type; an emitted
device function gets the C calling convention and no parameter attributes. -/
theorem kernel_abi (identMap : IdentMap) (ctx : EmitCtx) (m : Method)
    (ctx2 : EmitCtx) (fn : FnBuild)
    (h : emitMethod identMap ctx m = .ok (ctx2, fn)) :
    (m.funcDecl.name.isKernel = true →
      fn.callConv = some .AMDGPUKernel ∧
      fn.attrs.length = m.funcDecl.inputArguments.length ∧
      ∀ j v, m.funcDecl.inputArguments[j]? = some v →
        ∃ t, getType v.vType = .ok t ∧ fn.attrs[j]? = some (j + 1, t)) ∧
    (m.funcDecl.name.isKernel = false →
      fn.callConv = some .C ∧ fn.attrs = []) := by
  rw [emitMethod] at h
  cases hn : methodGlobalName identMap m with
  | error e => rw [hn] at h; simp at h
  | ok nameStr =>
    rw [hn] at h
    cases hft : getFunctionType (m.funcDecl.returnArguments.map (fun v => v.vType))
        (m.funcDecl.inputArguments.map
          (fun v => getInputArgumentType v.vType v.stateSpace)) with
    | error e => rw [hft] at h; simp at h
    | ok fnType =>
      rw [hft] at h
      simp only [] at h
      rcases hfv : freshValues
          { values := ctx.values, nextValue := ctx.nextValue + 1 }
          m.funcDecl.inputArguments.length with ⟨paramVals, ctxP⟩
      rw [freshValue] at h
      rw [hfv] at h
      simp only [] at h
      have hpvlen : paramVals.length = m.funcDecl.inputArguments.length := by
        have hl := freshValues_length m.funcDecl.inputArguments.length
          { values := ctx.values, nextValue := ctx.nextValue + 1 }
        rw [hfv] at hl
        exact hl
      cases hpl : emitParamLoop m.funcDecl.name.isKernel
          (registerFuncName ctxP m.funcDecl.name ctx.nextValue)
          (m.funcDecl.inputArguments.zip paramVals) 0 with
      | error e =>
        rw [hpl] at h
        simp at h
      | ok q =>
        obtain ⟨ctxq, nmsq, attrsq⟩ := q
        rw [hpl] at h
        simp only [] at h
        cases hbd : emitBody ctxq m.body with
        | error e => rw [hbd] at h; simp at h
        | ok br =>
          obtain ⟨ctxb, blocks⟩ := br
          rw [hbd] at h
          simp only [Except.ok.injEq, Prod.mk.injEq] at h
          obtain ⟨_, hfn⟩ := h
          obtain ⟨hf, hk⟩ := emitParamLoop_attrs _ _ _ _ _ _ _ hpl
          have hzlen : (m.funcDecl.inputArguments.zip paramVals).length =
              m.funcDecl.inputArguments.length := by
            rw [List.length_zip, hpvlen]
            omega
          constructor
          · intro hker
            rw [hker] at hk
            obtain ⟨hlen, hidx⟩ := hk rfl
            refine ⟨?_, ?_, ?_⟩
            · rw [← hfn]
              simp [hker]
            · rw [← hfn]
              simp only []
              rw [hlen, hzlen]
            · intro j v hj
              have hjlt : j < m.funcDecl.inputArguments.length := by
                by_contra hge
                rw [List.getElem?_eq_none (by omega)] at hj
                simp at hj
              obtain ⟨pv, hzip⟩ := zip_getElem_some
                m.funcDecl.inputArguments paramVals j v hj (by omega)
              obtain ⟨t, ht, hat⟩ := hidx j v pv hzip
              refine ⟨t, ht, ?_⟩
              rw [← hfn]
              simpa using hat
          · intro hdev
            rw [hdev] at hf
            rw [← hfn]
            simp [hdev, hf rfl]

theorem kernel_abi_witness :
    (emitMethod (fun _ => none) initialCtx
        ⟨⟨.Kernel "k", [], [⟨7, none, .Scalar .U64, .ParamEntry, []⟩]⟩,
         none, none⟩ =
      .ok (⟨[(7, 1)], 2⟩,
           ⟨"k", .FunctionType .Void [.PointerType 4], 0, [1], ["7"],
            [(1, .IntType 64)], some .AMDGPUKernel, []⟩)) ∧
    FnBuild.callConv
      ⟨"k", .FunctionType .Void [.PointerType 4], 0, [1], ["7"],
       [(1, .IntType 64)], some .AMDGPUKernel, []⟩ = some .AMDGPUKernel ∧
    (emitMethod (fun n => if n = 3 then some "f" else none) initialCtx
        ⟨⟨.Func 3, [], [⟨8, none, .Scalar .U32, .Reg, []⟩]⟩, none, none⟩ =
      .ok (⟨[(8, 1), (3, 0)], 2⟩,
           ⟨"f", .FunctionType .Void [.IntType 32], 0, [1], ["8"], [],
            some .C, []⟩)) ∧
    FnBuild.attrs
      ⟨"f", .FunctionType .Void [.IntType 32], 0, [1], ["8"], [],
       some .C, []⟩ = [] := by
  have h1 : emitMethod (fun _ => none) initialCtx
      ⟨⟨.Kernel "k", [], [⟨7, none, .Scalar .U64, .ParamEntry, []⟩]⟩,
       none, none⟩ =
      .ok (⟨[(7, 1)], 2⟩,
           ⟨"k", .FunctionType .Void [.PointerType 4], 0, [1], ["7"],
            [(1, .IntType 64)], some .AMDGPUKernel, []⟩) := rfl
  have h2 : emitMethod (fun n => if n = 3 then some "f" else none) initialCtx
      ⟨⟨.Func 3, [], [⟨8, none, .Scalar .U32, .Reg, []⟩]⟩, none, none⟩ =
      .ok (⟨[(8, 1), (3, 0)], 2⟩,
           ⟨"f", .FunctionType .Void [.IntType 32], 0, [1], ["8"], [],
            some .C, []⟩) := rfl
  refine ⟨h1, ?_, h2, ?_⟩
  · exact ((kernel_abi (fun _ => none) initialCtx _ _ _ h1).1 rfl).1
  · exact ((kernel_abi (fun n => if n = 3 then some "f" else none)
      initialCtx _ _ _ h2).2 rfl).2

/-! ## Allocas-block claim -/

theorem appendInstr_length : ∀ (bs : List Block) (i : Nat) (k : InstrK),
    (appendInstr bs i k).length = bs.length := by
  intro bs
  induction bs with
  | nil => intro i k; rfl
  | cons b bs ih =>
    intro i k
    cases i with
    | zero => rfl
    | succ i => simp [appendInstr, ih]

theorem blocksInstrsAt_appendInstr_self :
    ∀ (bs : List Block) (i : Nat) (k : InstrK), i < bs.length →
    blocksInstrsAt (appendInstr bs i k) i = blocksInstrsAt bs i ++ [k] := by
  intro bs
  induction bs with
  | nil => intro i k h; simp at h
  | cons b bs ih =>
    intro i k h
    cases i with
    | zero => simp [appendInstr, blocksInstrsAt]
    | succ i =>
      simp only [appendInstr, blocksInstrsAt, List.getElem?_cons_succ]
      exact ih i k (by simpa using h)

theorem blocksInstrsAt_appendInstr_ne :
    ∀ (bs : List Block) (i j : Nat) (k : InstrK), i ≠ j →
    blocksInstrsAt (appendInstr bs i k) j = blocksInstrsAt bs j := by
  intro bs
  induction bs with
  | nil => intro i j k h; simp [appendInstr]
  | cons b bs ih =>
    intro i j k h
    cases i with
    | zero =>
      cases j with
      | zero => exact absurd rfl h
      | succ j => simp [appendInstr, blocksInstrsAt]
    | succ i =>
      cases j with
      | zero => simp [appendInstr, blocksInstrsAt]
      | succ j =>
        simp only [appendInstr, blocksInstrsAt, List.getElem?_cons_succ]
        exact ih i j k (by omega)

theorem blocksInstrsAt_append_left :
    ∀ (bs bs2 : List Block) (j : Nat), j < bs.length →
    blocksInstrsAt (bs ++ bs2) j = blocksInstrsAt bs j := by
  intro bs bs2 j h
  rw [blocksInstrsAt, blocksInstrsAt, List.getElem?_append_left h]

theorem isAlloca_not_terminator (k : InstrK) (h : k.isAlloca = true) :
    k.isTerminator = false := by
  cases k <;> simp [InstrK.isAlloca, InstrK.isTerminator] at *

theorem withResult_cur (st : MethodState) (dst : SpirvWord)
    (mk : String → InstrK) : (withResult st dst mk).cur = st.cur := rfl

theorem withResult_blocks (st : MethodState) (dst : SpirvWord)
    (mk : String → InstrK) :
    (withResult st dst mk).blocks =
      appendInstr st.blocks st.cur (mk (identName dst)) := rfl

theorem emitStatement_block0 (s : Statement Instruction)
    (st st2 : MethodState) (hcur : 1 ≤ st.cur) (hlen : 2 ≤ st.blocks.length)
    (h : emitStatement st s = .ok st2) :
    1 ≤ st2.cur ∧ 2 ≤ st2.blocks.length ∧
    ∃ L, blocksInstrsAt st2.blocks 0 = blocksInstrsAt st.blocks 0 ++ L ∧
      (∀ k ∈ L, InstrK.isAlloca k = true) ∧
      L.length = countVariableStmts [s] := by
  have hcne : st.cur ≠ 0 := by omega
  cases s with
  | Variable v =>
    rw [emitStatement, emitVariable] at h
    cases hty : getType v.vType with
    | error e => rw [hty] at h; simp at h
    | ok t =>
      rw [hty] at h
      cases hsp : getStateSpace v.stateSpace with
      | error e => rw [hsp] at h; simp at h
      | ok space =>
        rw [hsp] at h
        simp only [] at h
        cases hinit : v.arrayInit.isEmpty with
        | false => rw [hinit] at h; simp at h
        | true =>
          rw [hinit] at h
          simp only [if_true, Except.ok.injEq] at h
          subst h
          refine ⟨hcur, ?_, [.Alloca t space (identName v.name) v.align], ?_, ?_, ?_⟩
          · simp only [appendInstr_length]
            exact hlen
          · exact blocksInstrsAt_appendInstr_self st.blocks 0 _ (by omega)
          · intro k hk
            rcases List.mem_singleton.mp hk with heq
            subst heq; rfl
          · simp [countVariableStmts]
  | Label l =>
    rw [emitStatement] at h
    simp only [Except.ok.injEq] at h
    subst h
    by_cases hT : hasTerminatorAt st.blocks st.cur = true
    · have hb : (emitLabel st l).blocks = st.blocks ++ [⟨identName l, []⟩] := by
        simp [emitLabel, hT]
      have hc : (emitLabel st l).cur = st.blocks.length := rfl
      refine ⟨by omega, ?_, [], ?_, by simp, by simp [countVariableStmts]⟩
      · rw [hb]; simp; omega
      · rw [hb, List.append_nil]
        exact blocksInstrsAt_append_left st.blocks _ 0 (by omega)
    · have hb : (emitLabel st l).blocks =
          appendInstr (st.blocks ++ [⟨identName l, []⟩]) st.cur
            (.Br st.blocks.length) := by
        simp [emitLabel, hT]
      have hc : (emitLabel st l).cur = st.blocks.length := rfl
      refine ⟨by omega, ?_, [], ?_, by simp, by simp [countVariableStmts]⟩
      · rw [hb]; simp [appendInstr_length]; omega
      · rw [hb, List.append_nil,
          blocksInstrsAt_appendInstr_ne _ st.cur 0 _ hcne]
        exact blocksInstrsAt_append_left st.blocks _ 0 (by omega)
  | Instruction inst =>
    rw [emitStatement] at h
    cases inst with
    | Mov d a =>
      rw [emitInstruction, emitMov] at h
      cases hv : valueOf st.ctx a.src with
      | error e => rw [hv] at h; simp at h
      | ok v =>
        rw [hv] at h
        simp only [Except.ok.injEq] at h
        subst h
        exact ⟨hcur, hlen, [], by simp, by simp, by simp [countVariableStmts]⟩
    | Ld d a =>
      rw [emitInstruction, emitLd] at h
      cases hnc : d.nonCoherent with
      | true => rw [hnc] at h; simp at h
      | false =>
        rw [hnc] at h
        by_cases hq : d.qualifier = .Weak
        · simp only [hq, if_false, ne_eq, not_true_eq_false, Bool.false_eq_true,
            if_neg, not_false_eq_true, if_true] at h
          cases hty : getType d.typ with
          | error e => simp [hty] at h
          | ok t =>
            simp only [hty] at h
            cases hv : valueOf st.ctx a.src with
            | error e => simp [hv] at h
            | ok ptr =>
              simp only [hv, Except.ok.injEq] at h
              subst h
              refine ⟨by rw [withResult_cur]; exact hcur, ?_, [], ?_, by simp,
                by simp [countVariableStmts]⟩
              · rw [withResult_blocks]
                simp only [appendInstr_length]
                exact hlen
              · rw [withResult_blocks, List.append_nil]
                exact blocksInstrsAt_appendInstr_ne _ st.cur 0 _ hcne
        · simp [hq] at h
    | Add d a =>
      rw [emitInstruction, emitAdd] at h
      cases hv1 : valueOf st.ctx a.src1 with
      | error e => rw [hv1] at h; simp at h
      | ok src1 =>
        rw [hv1] at h
        cases hv2 : valueOf st.ctx a.src2 with
        | error e => rw [hv2] at h; simp at h
        | ok src2 =>
          rw [hv2] at h
          simp only [Except.ok.injEq] at h
          subst h
          refine ⟨by rw [withResult_cur]; exact hcur, ?_, [], ?_, by simp,
            by simp [countVariableStmts]⟩
          · rw [withResult_blocks]
            simp only [appendInstr_length]
            exact hlen
          · rw [withResult_blocks, List.append_nil]
            exact blocksInstrsAt_appendInstr_ne _ st.cur 0 _ hcne
    | St d a =>
      rw [emitInstruction, emitSt] at h
      cases hv1 : valueOf st.ctx a.src1 with
      | error e => rw [hv1] at h; simp at h
      | ok ptr =>
        rw [hv1] at h
        cases hv2 : valueOf st.ctx a.src2 with
        | error e => rw [hv2] at h; simp at h
        | ok v =>
          rw [hv2] at h
          by_cases hq : d.qualifier = .Weak
          · simp only [hq, ne_eq, not_true_eq_false, Bool.false_eq_true, if_neg,
              not_false_eq_true, if_false, Except.ok.injEq] at h
            subst h
            refine ⟨hcur, ?_, [], ?_, by simp, by simp [countVariableStmts]⟩
            · simp only [appendInstr_length]
              exact hlen
            · rw [List.append_nil]
              exact blocksInstrsAt_appendInstr_ne _ st.cur 0 _ hcne
          · simp [hq] at h
    | Call d a =>
      rw [emitInstruction, emitCall] at h
      cases hr : d.returnArguments.any (fun p => decide (p.2 ≠ StateSpace.Reg)) with
      | true => rw [hr] at h; simp at h
      | false =>
        rw [hr] at h
        simp only [Bool.false_eq_true, if_false] at h
        cases hi : d.inputArguments.any (fun p => decide (p.2 ≠ StateSpace.Reg)) with
        | true => rw [hi] at h; simp at h
        | false =>
          rw [hi] at h
          simp only [Bool.false_eq_true, if_false] at h
          cases hnm : (match d.returnArguments, a.returnArguments with
            | [], [] => (.ok "" : Except EmitErr String)
            | [_], [dst] => .ok (identName dst)
            | _, _ => .error .panicTodo) with
          | error e => rw [hnm] at h; simp at h
          | ok nm =>
            rw [hnm] at h
            cases hft : getFunctionType (d.returnArguments.map (fun p => p.1))
                (d.inputArguments.map
                  (fun p => getInputArgumentType p.1 p.2)) with
            | error e => rw [hft] at h; simp at h
            | ok t =>
              rw [hft] at h
              cases hargs : a.inputArguments.mapM (valueOf st.ctx) with
              | error e => rw [hargs] at h; simp at h
              | ok argVals =>
                rw [hargs] at h
                cases hcal : valueOf st.ctx a.func with
                | error e => rw [hcal] at h; simp at h
                | ok callee =>
                  rw [hcal] at h
                  simp only [] at h
                  cases hra : a.returnArguments with
                  | nil =>
                    rw [hra] at h
                    simp only [Except.ok.injEq] at h
                    subst h
                    refine ⟨hcur, ?_, [], ?_, by simp,
                      by simp [countVariableStmts]⟩
                    · simp only [appendInstr_length]
                      exact hlen
                    · rw [List.append_nil]
                      exact blocksInstrsAt_appendInstr_ne _ st.cur 0 _ hcne
                  | cons ret rest =>
                    cases rest with
                    | nil =>
                      rw [hra] at h
                      simp only [Except.ok.injEq] at h
                      subst h
                      refine ⟨hcur, ?_, [], ?_, by simp,
                        by simp [countVariableStmts]⟩
                      · simp only [appendInstr_length]
                        exact hlen
                      · rw [List.append_nil]
                        exact blocksInstrsAt_appendInstr_ne _ st.cur 0 _
                          hcne
                    | cons r2 rest2 =>
                      rw [hra] at h
                      simp at h
    | Ret =>
      rw [emitInstruction] at h
      simp only [Except.ok.injEq] at h
      subst h
      refine ⟨hcur, ?_, [], ?_, by simp, by simp [countVariableStmts]⟩
      · rw [emitRet]
        simp only [appendInstr_length]
        exact hlen
      · rw [emitRet, List.append_nil]
        exact blocksInstrsAt_appendInstr_ne _ st.cur 0 _ hcne
    | Mul => simp [emitInstruction] at h
    | Setp => simp [emitInstruction] at h
    | SetpBool => simp [emitInstruction] at h
    | Not => simp [emitInstruction] at h
    | Or => simp [emitInstruction] at h
    | And => simp [emitInstruction] at h
    | Bra => simp [emitInstruction] at h
    | Cvt => simp [emitInstruction] at h
    | Shr => simp [emitInstruction] at h
    | Shl => simp [emitInstruction] at h
    | Cvta => simp [emitInstruction] at h
    | Abs => simp [emitInstruction] at h
    | Mad => simp [emitInstruction] at h
    | Fma => simp [emitInstruction] at h
    | Sub => simp [emitInstruction] at h
    | Min => simp [emitInstruction] at h
    | Max => simp [emitInstruction] at h
    | Rcp => simp [emitInstruction] at h
    | Sqrt => simp [emitInstruction] at h
    | Rsqrt => simp [emitInstruction] at h
    | Selp => simp [emitInstruction] at h
    | Bar => simp [emitInstruction] at h
    | Atom => simp [emitInstruction] at h
    | AtomCas => simp [emitInstruction] at h
    | Div => simp [emitInstruction] at h
    | Neg => simp [emitInstruction] at h
    | Sin => simp [emitInstruction] at h
    | Cos => simp [emitInstruction] at h
    | Lg2 => simp [emitInstruction] at h
    | Ex2 => simp [emitInstruction] at h
    | Clz => simp [emitInstruction] at h
    | Brev => simp [emitInstruction] at h
    | Popc => simp [emitInstruction] at h
    | Xor => simp [emitInstruction] at h
    | Rem => simp [emitInstruction] at h
    | Bfe => simp [emitInstruction] at h
    | Bfi => simp [emitInstruction] at h
    | PrmtSlow => simp [emitInstruction] at h
    | Prmt => simp [emitInstruction] at h
    | Activemask => simp [emitInstruction] at h
    | Membar => simp [emitInstruction] at h
    | Trap => simp [emitInstruction] at h
  | Conditional => simp [emitStatement] at h
  | LoadVar d =>
    rw [emitStatement, emitLoadVariable] at h
    by_cases hm : d.memberIndex.isSome
    · simp [hm] at h
    · simp only [hm, Bool.false_eq_true, if_false] at h
      cases hty : getType d.typ with
      | error e => rw [hty] at h; simp at h
      | ok t =>
        rw [hty] at h
        cases hv : valueOf st.ctx d.src with
        | error e => rw [hv] at h; simp at h
        | ok ptr =>
          rw [hv] at h
          simp only [Except.ok.injEq] at h
          subst h
          refine ⟨by rw [withResult_cur]; exact hcur, ?_, [], ?_, by simp,
            by simp [countVariableStmts]⟩
          · rw [withResult_blocks]
            simp only [appendInstr_length]
            exact hlen
          · rw [withResult_blocks, List.append_nil]
            exact blocksInstrsAt_appendInstr_ne _ st.cur 0 _ hcne
  | StoreVar d =>
    rw [emitStatement, emitStoreVar] at h
    cases hv1 : valueOf st.ctx d.src1 with
    | error e => rw [hv1] at h; simp at h
    | ok ptr =>
      rw [hv1] at h
      cases hv2 : valueOf st.ctx d.src2 with
      | error e => rw [hv2] at h; simp at h
      | ok v =>
        rw [hv2] at h
        simp only [Except.ok.injEq] at h
        subst h
        refine ⟨hcur, ?_, [], ?_, by simp, by simp [countVariableStmts]⟩
        · simp only [appendInstr_length]
          exact hlen
        · rw [List.append_nil]
          exact blocksInstrsAt_appendInstr_ne _ st.cur 0 _ hcne
  | Conversion c =>
    rw [emitStatement, emitConversion] at h
    cases hk : c.kind with
    | Default => rw [hk] at h; simp at h
    | SignExtend => rw [hk] at h; simp at h
    | PtrToPtr => rw [hk] at h; simp at h
    | AddressOf => rw [hk] at h; simp at h
    | BitToPtr =>
      rw [hk] at h
      cases hv : valueOf st.ctx c.src with
      | error e => rw [hv] at h; simp at h
      | ok src =>
        rw [hv] at h
        cases hpt : getPointerType c.toSpace with
        | error e => rw [hpt] at h; simp at h
        | ok t =>
          rw [hpt] at h
          simp only [Except.ok.injEq] at h
          subst h
          refine ⟨by rw [withResult_cur]; exact hcur, ?_, [], ?_, by simp,
            by simp [countVariableStmts]⟩
          · rw [withResult_blocks]
            simp only [appendInstr_length]
            exact hlen
          · rw [withResult_blocks, List.append_nil]
            exact blocksInstrsAt_appendInstr_ne _ st.cur 0 _ hcne
  | Constant c =>
    rw [emitStatement, emitConstant] at h
    cases hty : getScalarType c.typ with
    | error e => rw [hty] at h; simp at h
    | ok t =>
      rw [hty] at h
      simp only [Except.ok.injEq] at h
      subst h
      exact ⟨hcur, hlen, [], by simp, by simp, by simp [countVariableStmts]⟩
  | RetValue => simp [emitStatement] at h
  | PtrAccess => simp [emitStatement] at h
  | RepackVector => simp [emitStatement] at h
  | FunctionPointer => simp [emitStatement] at h
  | VectorAccess => simp [emitStatement] at h

theorem countVariableStmts_cons (s : Statement Instruction)
    (rest : List (Statement Instruction)) :
    countVariableStmts (s :: rest) =
      countVariableStmts [s] + countVariableStmts rest := by
  simp [countVariableStmts, List.countP_cons]
  omega

theorem emitStatements_block0 :
    ∀ (stmts : List (Statement Instruction)) (st st2 : MethodState),
    1 ≤ st.cur → 2 ≤ st.blocks.length →
    emitStatements st stmts = .ok st2 →
    1 ≤ st2.cur ∧ 2 ≤ st2.blocks.length ∧
    ∃ L, blocksInstrsAt st2.blocks 0 = blocksInstrsAt st.blocks 0 ++ L ∧
      (∀ k ∈ L, InstrK.isAlloca k = true) ∧
      L.length = countVariableStmts stmts := by
  intro stmts
  induction stmts with
  | nil =>
    intro st st2 hcur hlen h
    rw [emitStatements] at h
    simp only [Except.ok.injEq] at h
    subst h
    exact ⟨hcur, hlen, [], by simp, by simp, by simp [countVariableStmts]⟩
  | cons s rest ih =>
    intro st st2 hcur hlen h
    rw [emitStatements] at h
    cases hs : emitStatement st s with
    | error e => rw [hs] at h; simp at h
    | ok stm =>
      rw [hs] at h
      obtain ⟨hcur1, hlen1, L1, hL1, hallo1, hlenL1⟩ :=
        emitStatement_block0 s st stm hcur hlen hs
      obtain ⟨hcur2, hlen2, L2, hL2, hallo2, hlenL2⟩ :=
        ih stm st2 hcur1 hlen1 h
      refine ⟨hcur2, hlen2, L1 ++ L2, ?_, ?_, ?_⟩
      · rw [hL2, hL1, List.append_assoc]
      · intro k hk
        rcases List.mem_append.mp hk with hm | hm
        · exact hallo1 k hm
        · exact hallo2 k hm
      · rw [List.length_append, hlenL1, hlenL2]
        conv_rhs => rw [countVariableStmts_cons s rest]

/-- Claim C3: for every emitted method with a body, two basic blocks are
created up-front in order (the allocas block at index 0 and the real entry
block at index 1; the built function has at least these two blocks), every
`Statement::Variable` produces its alloca in the allocas block regardless of
its position among the statements (block 0 consists of exactly one alloca per
variable statement and nothing else), and after all statements are emitted
the allocas block is terminated by a single unconditional branch to the real
entry block (its only terminator, at the very end). -/
theorem allocas_block (identMap : IdentMap) (ctx : EmitCtx) (m : Method)
    (ctx2 : EmitCtx) (fn : FnBuild) (stmts : List (Statement Instruction))
    (hb : m.body = some stmts)
    (h : emitMethod identMap ctx m = .ok (ctx2, fn)) :
    2 ≤ fn.blocks.length ∧
    ∃ L, blocksInstrsAt fn.blocks 0 = L ++ [.Br 1] ∧
      (∀ k ∈ L, InstrK.isAlloca k = true) ∧
      (∀ k ∈ L, InstrK.isTerminator k = false) ∧
      L.length = countVariableStmts stmts := by
  rw [emitMethod] at h
  cases hn : methodGlobalName identMap m with
  | error e => rw [hn] at h; simp at h
  | ok nameStr =>
    rw [hn] at h
    cases hft : getFunctionType (m.funcDecl.returnArguments.map (fun v => v.vType))
        (m.funcDecl.inputArguments.map
          (fun v => getInputArgumentType v.vType v.stateSpace)) with
    | error e => rw [hft] at h; simp at h
    | ok fnType =>
      rw [hft] at h
      simp only [] at h
      rcases hfv : freshValues
          { values := ctx.values, nextValue := ctx.nextValue + 1 }
          m.funcDecl.inputArguments.length with ⟨paramVals, ctxP⟩
      rw [freshValue] at h
      rw [hfv] at h
      simp only [] at h
      cases hpl : emitParamLoop m.funcDecl.name.isKernel
          (registerFuncName ctxP m.funcDecl.name ctx.nextValue)
          (m.funcDecl.inputArguments.zip paramVals) 0 with
      | error e =>
        rw [hpl] at h
        simp at h
      | ok q =>
        obtain ⟨ctxq, nmsq, attrsq⟩ := q
        rw [hpl] at h
        simp only [] at h
        cases hbd : emitBody ctxq m.body with
        | error e => rw [hbd] at h; simp at h
        | ok br =>
          obtain ⟨ctxb, blocks⟩ := br
          rw [hbd] at h
          simp only [Except.ok.injEq, Prod.mk.injEq] at h
          obtain ⟨_, hfn⟩ := h
          rw [hb, emitBody] at hbd
          cases hes : emitStatements ⟨ctxq, [⟨"", []⟩, ⟨"", []⟩], 1⟩ stmts with
          | error e => rw [hes] at hbd; simp at hbd
          | ok stF =>
            rw [hes] at hbd
            simp only [Except.ok.injEq, Prod.mk.injEq] at hbd
            obtain ⟨_, hblocks⟩ := hbd
            obtain ⟨hcurF, hlenF, L, hL, hallo, hlenL⟩ :=
              emitStatements_block0 stmts ⟨ctxq, [⟨"", []⟩, ⟨"", []⟩], 1⟩ stF
                (by simp) (by simp) hes
            have hbase : blocksInstrsAt
                (⟨ctxq, [⟨"", []⟩, ⟨"", []⟩], 1⟩ : MethodState).blocks 0 = [] := rfl
            rw [hbase, List.nil_append] at hL
            constructor
            · rw [← hfn]
              simp only []
              rw [← hblocks, appendInstr_length]
              exact hlenF
            · refine ⟨L, ?_, hallo, ?_, hlenL⟩
              · rw [← hfn]
                simp only []
                rw [← hblocks,
                  blocksInstrsAt_appendInstr_self stF.blocks 0 _ (by omega),
                  hL]
              · intro k hk
                exact isAlloca_not_terminator k (hallo k hk)

theorem allocas_block_witness :
    (emitMethod (fun _ => none) initialCtx
        ⟨⟨.Kernel "k", [], []⟩, none,
         some [.Variable ⟨5, none, .Scalar .U32, .Reg, []⟩,
               .Instruction .Ret]⟩ =
      .ok (⟨[(5, 1)], 2⟩,
           ⟨"k", .FunctionType .Void [], 0, [], [], [], some .AMDGPUKernel,
            [⟨"", [.Alloca (.IntType 32) 5 "5" none, .Br 1]⟩,
             ⟨"", [.RetVoid]⟩]⟩)) ∧
    2 ≤ (FnBuild.blocks
      ⟨"k", .FunctionType .Void [], 0, [], [], [], some .AMDGPUKernel,
       [⟨"", [.Alloca (.IntType 32) 5 "5" none, .Br 1]⟩,
        ⟨"", [.RetVoid]⟩]⟩).length ∧
    blocksInstrsAt
      [⟨"", [.Alloca (.IntType 32) 5 "5" none, .Br 1]⟩, ⟨"", [.RetVoid]⟩] 0 =
      [.Alloca (.IntType 32) 5 "5" none] ++ [.Br 1] := by
  have h1 : emitMethod (fun _ => none) initialCtx
      ⟨⟨.Kernel "k", [], []⟩, none,
       some [.Variable ⟨5, none, .Scalar .U32, .Reg, []⟩,
             .Instruction .Ret]⟩ =
      .ok (⟨[(5, 1)], 2⟩,
           ⟨"k", .FunctionType .Void [], 0, [], [], [], some .AMDGPUKernel,
            [⟨"", [.Alloca (.IntType 32) 5 "5" none, .Br 1]⟩,
             ⟨"", [.RetVoid]⟩]⟩) := rfl
  refine ⟨h1, ?_, rfl⟩
  exact (allocas_block (fun _ => none) initialCtx _ _ _
    [.Variable ⟨5, none, .Scalar .U32, .Reg, []⟩, .Instruction .Ret]
    rfl h1).1

end ZLUDA
